import Mathlib

/-!
# Verification of the Deconflict drone-deconfliction core

A shallow embedding in Lean 4 of the core of the Deconflict repository:
the data models (`data_models.py`), the segment builder (`trajectory.py`),
the conflict detector (`detector.py`) and the enhanced detector
(`detector_enhanced.py`).

Modelling conventions:
* Python floats are modelled as real numbers (`ℝ`).
* A Python function that can raise is modelled as `Except Unit`-valued
  (`.error ()` is a raised exception); `None`/`Some` results are `Option`s.
* `numpy` arrays of coordinates are modelled as `List ℝ`;
  `np.linalg.norm (a - b)` is `Real.sqrt` of the sum of squared
  componentwise differences, and `np.linspace` is modelled exactly
  (for `n ≥ 2`, point `i` is `a + i*(b-a)/(n-1)`, so the last point is
  exactly `b`, matching numpy's inclusive endpoint handling).
-/

namespace Deconflict

open scoped Classical

/-! ## Vector helpers (numpy array operations used by the source) -/

/-- Componentwise difference of two coordinate vectors (`a - b` on numpy
arrays). -/
def vsub (a b : List ℝ) : List ℝ := List.zipWith (fun x y => x - y) a b

/-- Sum of squares of the entries of a vector. -/
def normSq (v : List ℝ) : ℝ := (v.map (fun x => x * x)).sum

/-- `np.linalg.norm (a - b)`: the Euclidean distance between two coordinate
vectors. -/
noncomputable def distv (a b : List ℝ) : ℝ := Real.sqrt (normSq (vsub a b))

/-- `np.linspace a b n`: `n` evenly spaced points from `a` to `b` inclusive.
For `n ≥ 2` the `i`-th point is `a + i * (b - a) / (n - 1)`; the endpoint is
included exactly. -/
noncomputable def linspace (a b : ℝ) : ℕ → List ℝ
  | 0 => []
  | 1 => [a]
  | m + 2 =>
    (List.range (m + 2)).map
      (fun (i : ℕ) => a + (i : ℝ) * (b - a) / ((m : ℝ) + 1))

/-! ## Data models (`data_models.py`) -/

/-- `Waypoint`: a point in 2D or 3D space (`z` defaults to `0`). -/
structure Waypoint where
  x : ℝ
  y : ℝ
  z : ℝ := 0
deriving Inhabited

/-- `Waypoint.to_array`: the waypoint as a coordinate vector, with or
without the `z` component. -/
def Waypoint.to_array (w : Waypoint) (include_z : Bool) : List ℝ :=
  if include_z then [w.x, w.y, w.z] else [w.x, w.y]

/-- `Flight`: a drone mission. The record itself; the constructor
validation of `__post_init__` is `mkFlight` below. -/
structure Flight where
  id : String
  waypoints : List Waypoint
  t_start : ℝ
  t_end : ℝ
  speed : ℝ := 5

/-- `Flight.__post_init__` together with dataclass construction: build a
`Flight`, raising (`.error ()`) when the waypoint list has fewer than two
entries, when `t_start ≥ t_end`, or when `speed ≤ 0`. -/
noncomputable def mkFlight (id : String) (waypoints : List Waypoint)
    (t_start t_end : ℝ) (speed : ℝ := 5) : Except Unit Flight :=
  if waypoints.length < 2 then .error ()
  else if t_start ≥ t_end then .error ()
  else if speed ≤ 0 then .error ()
  else .ok ⟨id, waypoints, t_start, t_end, speed⟩

/-- `Flight.duration`. -/
def Flight.duration (f : Flight) : ℝ := f.t_end - f.t_start

/-- `Flight.is_3d`: true when some waypoint has a non-zero altitude. -/
noncomputable def Flight.is_3d (f : Flight) : Bool :=
  f.waypoints.any (fun wp => decide (wp.z ≠ 0))

/-- `Segment`: a flight segment between two waypoints with its time span.
(The source's `end` field is named `stop` here because `end` is a Lean
keyword.) -/
structure Segment where
  start : Waypoint
  stop : Waypoint
  t_start : ℝ
  t_end : ℝ
  flight_id : String

instance : Inhabited Segment := ⟨⟨default, default, 0, 0, ""⟩⟩

/-- `Segment.duration`. -/
def Segment.duration (s : Segment) : ℝ := s.t_end - s.t_start

/-- `Segment.position_at_time`: linear interpolation of the position at
time `t`.  Raises (`none`) when `t` is outside `[t_start, t_end]`; returns
the start position when the segment has zero duration; otherwise returns
`start + alpha * (end - start)` componentwise with
`alpha = (t - t_start) / (t_end - t_start)`. -/
noncomputable def Segment.position_at_time (s : Segment) (t : ℝ)
    (include_z : Bool) : Option (List ℝ) :=
  if t < s.t_start ∨ t > s.t_end then none
  else if s.t_start = s.t_end then some (s.start.to_array include_z)
  else
    let alpha := (t - s.t_start) / (s.t_end - s.t_start)
    some (List.zipWith (fun a b => a + alpha * (b - a))
      (s.start.to_array include_z) (s.stop.to_array include_z))

/-- `Conflict`: a detected violation of the safety buffer. -/
structure Conflict where
  primary_flight_id : String
  conflicting_flight_id : String
  location : List ℝ
  time : ℝ
  min_distance : ℝ
  safety_buffer : ℝ

/-! ## Trajectory and segment building (`trajectory.py`) -/

/-- The Euclidean lengths of the legs between consecutive waypoints
(`np.linalg.norm (end - start)` for each consecutive pair), using the
mission's own 3D flag for the coordinate arrays. -/
noncomputable def legLengths (f : Flight) : List ℝ :=
  (f.waypoints.zip f.waypoints.tail).map
    (fun p => distv (p.2.to_array f.is_3d) (p.1.to_array f.is_3d))

/-- The cumulative-time loop of `compute_segment_times`: starting from
`cum`, for each leg length `l` append `cum + (l / total) * total_duration`
and continue from there. -/
noncomputable def accTimes (total total_duration : ℝ) :
    List ℝ → ℝ → List ℝ
  | [], _ => []
  | l :: ls, cum =>
    let cum2 := cum + l / total * total_duration
    cum2 :: accTimes total total_duration ls cum2

/-- `compute_segment_times`: one timestamp per waypoint.  If the total
path length is zero the mission window is spread evenly
(`np.linspace t_start t_end n`); otherwise time is allocated to each leg
in proportion to its length, and the final timestamp is forced to be
exactly `t_end`. -/
noncomputable def compute_segment_times (f : Flight) : List ℝ :=
  let lengths := legLengths f
  let total_length := lengths.sum
  if total_length = 0 then
    linspace f.t_start f.t_end f.waypoints.length
  else
    (f.t_start ::
      accTimes total_length (f.t_end - f.t_start) lengths.dropLast f.t_start)
    ++ [f.t_end]

/-- `build_segments`: one `Segment` per consecutive waypoint pair, with
the time boundaries given by `compute_segment_times`. -/
noncomputable def build_segments (f : Flight) : List Segment :=
  let times := compute_segment_times f
  (List.range (f.waypoints.length - 1)).map (fun i =>
    { start := f.waypoints.getD i default
      stop := f.waypoints.getD (i + 1) default
      t_start := times.getD i 0
      t_end := times.getD (i + 1) 0
      flight_id := f.id })

/-! ## Conflict detection (`detector.py`) -/

/-- `time_windows_overlap`: two time windows overlap unless one ends
before the other starts. -/
noncomputable def time_windows_overlap (t1_start t1_end t2_start t2_end : ℝ) :
    Bool :=
  !(decide (t1_end < t2_start) || decide (t2_end < t1_start))

/-- `compute_overlap_window`: the intersection `(max of starts, min of
ends)` of two time windows, or `none` when `time_windows_overlap` fails. -/
noncomputable def compute_overlap_window (t1_start t1_end t2_start t2_end : ℝ) :
    Option (ℝ × ℝ) :=
  if time_windows_overlap t1_start t1_end t2_start t2_end then
    some (max t1_start t2_start, min t1_end t2_end)
  else
    none

/-- One iteration of the detector's sampling loop: interpolate both
segments at `t` (propagating a range error) and return the distance
between the two positions, the sample time, and the primary segment's
position. -/
noncomputable def sampleEval (seg1 seg2 : Segment) (include_z : Bool)
    (t : ℝ) : Except Unit (ℝ × ℝ × List ℝ) :=
  match seg1.position_at_time t include_z with
  | none => .error ()
  | some pos1 =>
    match seg2.position_at_time t include_z with
    | none => .error ()
    | some pos2 => .ok (distv pos1 pos2, t, pos1)

/-- The detector's minimum-tracking loop over the sample times.  The
state is `none` while the tracked minimum is still `inf`, and
`some (min_distance, conflict_time, conflict_location)` afterwards; the
state is replaced only when a strictly smaller distance is found. -/
noncomputable def trackMin (seg1 seg2 : Segment) (include_z : Bool) :
    List ℝ → Option (ℝ × ℝ × List ℝ) →
    Except Unit (Option (ℝ × ℝ × List ℝ))
  | [], best => .ok best
  | t :: ts, best =>
    match sampleEval seg1 seg2 include_z t with
    | .error e => .error e
    | .ok (d, t1, p1) =>
      match best with
      | none => trackMin seg1 seg2 include_z ts (some (d, t1, p1))
      | some (dm, tm, pm) =>
        if d < dm then trackMin seg1 seg2 include_z ts (some (d, t1, p1))
        else trackMin seg1 seg2 include_z ts (some (dm, tm, pm))

/-- `segment_conflict`: spatio-temporal conflict check for one pair of
segments.  Returns `.ok none` when there is no temporal overlap or the
tracked minimum distance is not below the safety buffer; returns
`.ok (some c)` with the conflict record otherwise; `.error ()` models a
raised exception from `position_at_time`. -/
noncomputable def segment_conflict (seg1 seg2 : Segment)
    (safety_buffer : ℝ) (include_z : Bool := false)
    (time_samples : ℕ := 20) : Except Unit (Option Conflict) :=
  match compute_overlap_window seg1.t_start seg1.t_end
      seg2.t_start seg2.t_end with
  | none => .ok none
  | some (overlap_start, overlap_end) =>
    match trackMin seg1 seg2 include_z
        (linspace overlap_start overlap_end time_samples) none with
    | .error e => .error e
    | .ok none => .ok none
    | .ok (some (min_distance, conflict_time, conflict_location)) =>
      if min_distance < safety_buffer then
        .ok (some
          { primary_flight_id := seg1.flight_id
            conflicting_flight_id := seg2.flight_id
            location := conflict_location
            time := conflict_time
            min_distance := min_distance
            safety_buffer := safety_buffer })
      else
        .ok none

/-- The nested segment-pair loops of `check_mission`, flattened into one
pass over the pair list with an accumulator (`all_conflicts.append`). -/
noncomputable def runPairs (safety_buffer : ℝ) (include_z : Bool)
    (time_samples : ℕ) :
    List (Segment × Segment) → List Conflict → Except Unit (List Conflict)
  | [], acc => .ok acc
  | (p, s) :: rest, acc =>
    match segment_conflict p s safety_buffer include_z time_samples with
    | .error e => .error e
    | .ok none => runPairs safety_buffer include_z time_samples rest acc
    | .ok (some c) =>
      runPairs safety_buffer include_z time_samples rest (acc ++ [c])

/-- The segment-pair list visited by `check_mission`, in loop order:
other mission outermost, then primary segment, then other-mission
segment. -/
noncomputable def missionPairs (primary : Flight)
    (simulated_flights : List Flight) : List (Segment × Segment) :=
  let primary_segments := build_segments primary
  simulated_flights.flatMap (fun sim_flight =>
    let sim_segments := build_segments sim_flight
    primary_segments.flatMap (fun p_seg =>
      sim_segments.map (fun s_seg => (p_seg, s_seg))))

/-- `check_mission`: run `segment_conflict` over every pair of a primary
segment with a segment of each simulated flight, in loop order, and
return `(is_clear, conflicts)` where `is_clear` is the emptiness test of
the aggregate conflict list. -/
noncomputable def check_mission (primary : Flight)
    (simulated_flights : List Flight) (safety_buffer : ℝ := 10)
    (include_z : Bool := false) : Except Unit (Bool × List Conflict) :=
  match runPairs safety_buffer include_z 20
      (missionPairs primary simulated_flights) [] with
  | .error e => .error e
  | .ok all_conflicts => .ok (decide (all_conflicts.length = 0), all_conflicts)

/-! ## Enhanced detection (`detector_enhanced.py`, created by `script_2.py`)

The enhanced module re-declares `time_windows_overlap` and
`compute_overlap_window` with identical bodies and defines
`segment_conflict_high_accuracy` with the same algorithm as
`detector.segment_conflict`, differing only in the default sample count
(100 instead of 20).  The namespace `Enhanced` mirrors the module. -/

namespace Enhanced

/-- `detector_enhanced.time_windows_overlap` (identical body). -/
noncomputable def time_windows_overlap (t1_start t1_end t2_start t2_end : ℝ) :
    Bool :=
  !(decide (t1_end < t2_start) || decide (t2_end < t1_start))

/-- `detector_enhanced.compute_overlap_window` (identical body). -/
noncomputable def compute_overlap_window (t1_start t1_end t2_start t2_end : ℝ) :
    Option (ℝ × ℝ) :=
  if time_windows_overlap t1_start t1_end t2_start t2_end then
    some (max t1_start t2_start, min t1_end t2_end)
  else
    none

/-- `segment_conflict_high_accuracy`: the enhanced detector's pairwise
check.  The body is the same sampling algorithm as
`detector.segment_conflict`, with the default sample count raised to
100. -/
noncomputable def segment_conflict_high_accuracy (seg1 seg2 : Segment)
    (safety_buffer : ℝ) (include_z : Bool := false)
    (time_samples : ℕ := 100) : Except Unit (Option Conflict) :=
  match compute_overlap_window seg1.t_start seg1.t_end
      seg2.t_start seg2.t_end with
  | none => .ok none
  | some (overlap_start, overlap_end) =>
    match trackMin seg1 seg2 include_z
        (linspace overlap_start overlap_end time_samples) none with
    | .error e => .error e
    | .ok none => .ok none
    | .ok (some (min_distance, conflict_time, conflict_location)) =>
      if min_distance < safety_buffer then
        .ok (some
          { primary_flight_id := seg1.flight_id
            conflicting_flight_id := seg2.flight_id
            location := conflict_location
            time := conflict_time
            min_distance := min_distance
            safety_buffer := safety_buffer })
      else
        .ok none

/-- The nested segment-pair loops of `check_mission_high_accuracy`,
flattened into one pass over the pair list with an accumulator. -/
noncomputable def runPairsHA (safety_buffer : ℝ) (include_z : Bool)
    (time_samples : ℕ) :
    List (Segment × Segment) → List Conflict → Except Unit (List Conflict)
  | [], acc => .ok acc
  | (p, s) :: rest, acc =>
    match segment_conflict_high_accuracy p s safety_buffer include_z
        time_samples with
    | .error e => .error e
    | .ok none => runPairsHA safety_buffer include_z time_samples rest acc
    | .ok (some c) =>
      runPairsHA safety_buffer include_z time_samples rest (acc ++ [c])

/-- `check_mission_high_accuracy`: the enhanced mission check with a
configurable sample count. -/
noncomputable def check_mission_high_accuracy (primary : Flight)
    (simulated_flights : List Flight) (safety_buffer : ℝ := 10)
    (include_z : Bool := false) (time_samples : ℕ := 100) :
    Except Unit (Bool × List Conflict) :=
  match runPairsHA safety_buffer include_z time_samples
      (missionPairs primary simulated_flights) [] with
  | .error e => .error e
  | .ok all_conflicts => .ok (decide (all_conflicts.length = 0), all_conflicts)

/-- `detector_enhanced.segment_conflict` (backward-compatible wrapper):
delegates to `segment_conflict_high_accuracy` with a default of 20
samples. -/
noncomputable def segment_conflict (seg1 seg2 : Segment)
    (safety_buffer : ℝ) (include_z : Bool := false)
    (time_samples : ℕ := 20) : Except Unit (Option Conflict) :=
  segment_conflict_high_accuracy seg1 seg2 safety_buffer include_z
    time_samples

/-- `detector_enhanced.check_mission` (backward-compatible wrapper):
delegates to `check_mission_high_accuracy` with 20 samples. -/
noncomputable def check_mission (primary : Flight)
    (simulated_flights : List Flight) (safety_buffer : ℝ := 10)
    (include_z : Bool := false) : Except Unit (Bool × List Conflict) :=
  check_mission_high_accuracy primary simulated_flights safety_buffer
    include_z 20

end Enhanced

/-! ## Specification-side helpers -/

/-- A flight satisfying the mission invariants of `Flight.__post_init__`:
at least two waypoints, strictly positive duration, strictly positive
speed. -/
def Flight.valid (f : Flight) : Prop :=
  2 ≤ f.waypoints.length ∧ f.t_start < f.t_end ∧ 0 < f.speed

/-- A well-formed segment: its time span is an honest interval.  Every
segment produced by `build_segments` from a valid flight is well-formed. -/
def Segment.wf (s : Segment) : Prop := s.t_start ≤ s.t_end

/-- `t` lies in the segment's time span. -/
def inSpan (s : Segment) (t : ℝ) : Prop := s.t_start ≤ t ∧ t ≤ s.t_end

/-- Total interpolation function: the value `position_at_time` returns
when `t` is in range (without the range check). -/
noncomputable def interp (s : Segment) (include_z : Bool) (t : ℝ) : List ℝ :=
  if s.t_start = s.t_end then s.start.to_array include_z
  else
    List.zipWith
      (fun a b => a + (t - s.t_start) / (s.t_end - s.t_start) * (b - a))
      (s.start.to_array include_z) (s.stop.to_array include_z)

/-- The distance between the two segments' interpolated positions at
time `t`: the quantity sampled by the detector. -/
noncomputable def distAt (s1 s2 : Segment) (include_z : Bool) (t : ℝ) : ℝ :=
  distv (interp s1 include_z t) (interp s2 include_z t)

/-! ## The ordering claimed by the specification for `check_mission`

The specification claims the aggregate conflict list is ordered
primary-mission-segment-major, then by other-mission order, then by
other-mission-segment order.  The function below aggregates in exactly
that claimed order, for comparison with the implementation's loop
order (other mission outermost). -/

/-- Modelled from the spec: the segment-pair enumeration in the claimed
order — primary segment outermost, then other mission, then
other-mission segment. -/
noncomputable def missionPairsClaimed (primary : Flight)
    (simulated_flights : List Flight) : List (Segment × Segment) :=
  (build_segments primary).flatMap (fun p_seg =>
    simulated_flights.flatMap (fun sim_flight =>
      (build_segments sim_flight).map (fun s_seg => (p_seg, s_seg))))

/-- Modelled from the spec: `check_mission` with the conflict list
aggregated in the claimed primary-segment-major order. -/
noncomputable def check_mission_claimed (primary : Flight)
    (simulated_flights : List Flight) (safety_buffer : ℝ := 10)
    (include_z : Bool := false) : Except Unit (Bool × List Conflict) :=
  match runPairs safety_buffer include_z 20
      (missionPairsClaimed primary simulated_flights) [] with
  | .error e => .error e
  | .ok all_conflicts => .ok (decide (all_conflicts.length = 0), all_conflicts)

/-! ## Concrete fixtures used in the closed-form checks -/

/-- Fixture: eastbound segment from `(0,0)` to `(2,0)` over `t ∈ [0,2]`. -/
def segE : Segment := ⟨⟨0, 0, 0⟩, ⟨2, 0, 0⟩, 0, 2, "X"⟩

/-- Fixture: westbound segment from `(2,0)` to `(0,0)` over `t ∈ [0,2]`,
crossing `segE` at `t = 1`. -/
def segW : Segment := ⟨⟨2, 0, 0⟩, ⟨0, 0, 0⟩, 0, 2, "Y"⟩

/-- Fixture: a primary mission hovering at `(0,0)` with three coincident
waypoints over `t ∈ [0,10]`. -/
def flightP : Flight := ⟨"P", [⟨0, 0, 0⟩, ⟨0, 0, 0⟩, ⟨0, 0, 0⟩], 0, 10, 5⟩

/-- Fixture: a mission hovering at `(1,0)` over `t ∈ [0,10]`. -/
def flightA : Flight := ⟨"A", [⟨1, 0, 0⟩, ⟨1, 0, 0⟩], 0, 10, 5⟩

/-- Fixture: a mission hovering at `(2,0)` over `t ∈ [0,10]`. -/
def flightB : Flight := ⟨"B", [⟨2, 0, 0⟩, ⟨2, 0, 0⟩], 0, 10, 5⟩

lemma position_at_time_eq_interp (s : Segment) (t : ℝ) (z : Bool)
    (h : inSpan s t) : s.position_at_time t z = some (interp s z t) := by
  rcases h with ⟨h1, h2⟩
  unfold Segment.position_at_time interp
  rw [if_neg (by push_neg; exact ⟨h1, h2⟩)]
  by_cases he : s.t_start = s.t_end
  · rw [if_pos he, if_pos he]
  · rw [if_neg he, if_neg he]

lemma position_at_time_none_iff (s : Segment) (t : ℝ) (z : Bool) :
    s.position_at_time t z = none ↔ (t < s.t_start ∨ t > s.t_end) := by
  unfold Segment.position_at_time
  by_cases h : t < s.t_start ∨ t > s.t_end
  · rw [if_pos h]; simpa using h
  · rw [if_neg h]
    by_cases he : s.t_start = s.t_end
    · rw [if_pos he]; simpa using h
    · rw [if_neg he]; simpa using h

lemma sampleEval_eq (s1 s2 : Segment) (z : Bool) (t : ℝ)
    (h1 : inSpan s1 t) (h2 : inSpan s2 t) :
    sampleEval s1 s2 z t = .ok (distAt s1 s2 z t, t, interp s1 z t) := by
  unfold sampleEval
  rw [position_at_time_eq_interp s1 t z h1, position_at_time_eq_interp s2 t z h2]
  rfl

/-! ## `linspace` lemmas -/

lemma linspace_length (a b : ℝ) (n : ℕ) : (linspace a b n).length = n := by
  match n with
  | 0 => rfl
  | 1 => rfl
  | m + 2 =>
    unfold linspace
    rw [List.length_map, List.length_range]

lemma linspace_get (a b : ℝ) (m i : ℕ) (h : i < m + 2) :
    (linspace a b (m + 2)).get ⟨i, by rw [linspace_length]; exact h⟩ =
      a + i * (b - a) / (m + 1) := by
  unfold linspace
  rw [List.get_eq_getElem]
  simp only [List.getElem_map, List.getElem_range]

lemma linspace_mem (a b : ℝ) (n : ℕ) (x : ℝ) (hab : a ≤ b)
    (hx : x ∈ linspace a b n) : a ≤ x ∧ x ≤ b := by
  match n with
  | 0 => simp [linspace] at hx
  | 1 =>
    unfold linspace at hx
    rw [List.mem_singleton] at hx
    subst hx
    exact ⟨le_refl x, hab⟩
  | m + 2 =>
    unfold linspace at hx
    rw [List.mem_map] at hx
    obtain ⟨i, hi, rfl⟩ := hx
    rw [List.mem_range] at hi
    have hm : (0 : ℝ) < (m : ℝ) + 1 := by positivity
    have hne : ((m : ℝ) + 1) ≠ 0 := ne_of_gt hm
    constructor
    · have : 0 ≤ (i : ℝ) * (b - a) / ((m : ℝ) + 1) := by
        apply div_nonneg _ (le_of_lt hm)
        exact mul_nonneg (Nat.cast_nonneg i) (by linarith)
      linarith
    · have hi' : (i : ℝ) ≤ (m : ℝ) + 1 := by
        have h2 : (i : ℝ) < (m : ℝ) + 2 := by exact_mod_cast hi
        have h3 : (i : ℝ) ≤ (m : ℝ) + 1 := by
          have := Nat.lt_succ_iff.mp (by exact_mod_cast hi : i < (m + 1) + 1)
          exact_mod_cast this
        exact h3
      have h1 : (i : ℝ) * (b - a) ≤ ((m : ℝ) + 1) * (b - a) :=
        mul_le_mul_of_nonneg_right hi' (by linarith)
      have h2 : (i : ℝ) * (b - a) / ((m : ℝ) + 1) ≤
          ((m : ℝ) + 1) * (b - a) / ((m : ℝ) + 1) :=
        (div_le_div_iff_of_pos_right hm).mpr h1
      rw [mul_div_cancel_left₀ _ hne] at h2
      linarith

lemma linspace_cons (a b : ℝ) (k : ℕ) :
    linspace a b (k + 2) = a :: (List.range (k + 1)).map
      (fun (i : ℕ) => a + ((i : ℝ) + 1) * (b - a) / ((k : ℝ) + 1)) := by
  show (List.range (k + 2)).map
      (fun (i : ℕ) => a + (i : ℝ) * (b - a) / ((k : ℝ) + 1)) = _
  rw [List.range_succ_eq_map, List.map_cons, List.map_map]
  congr 1
  · simp
  · apply List.map_congr_left
    intro i _
    simp only [Function.comp_apply, Nat.succ_eq_add_one]
    push_cast
    ring

lemma linspace_head (a b : ℝ) (n : ℕ) (h : 1 ≤ n) :
    ∃ rest, linspace a b n = a :: rest := by
  match n with
  | 1 => exact ⟨[], rfl⟩
  | k + 2 => exact ⟨_, linspace_cons a b k⟩

lemma linspace_sorted (a b : ℝ) (n : ℕ) (hab : a ≤ b) :
    (linspace a b n).Sorted (· ≤ ·) := by
  match n with
  | 0 => simp [linspace]
  | 1 => simp [linspace]
  | m + 2 =>
    unfold linspace
    refine (List.pairwise_map).mpr ?_
    have hp : (List.range (m + 2)).Pairwise (· < ·) := List.pairwise_lt_range _
    refine hp.imp ?_
    intro i j hij
    have hm : (0 : ℝ) < (m : ℝ) + 1 := by positivity
    apply add_le_add_left
    refine (div_le_div_iff_of_pos_right hm).mpr ?_
    exact mul_le_mul_of_nonneg_right
      (by exact_mod_cast le_of_lt hij) (by linarith)


/-! ## Overlap-window lemmas -/

lemma time_windows_overlap_iff (t1s t1e t2s t2e : ℝ) :
    time_windows_overlap t1s t1e t2s t2e = true ↔
      t2s ≤ t1e ∧ t1s ≤ t2e := by
  unfold time_windows_overlap
  simp [not_lt]

lemma overlap_some_eq (t1s t1e t2s t2e os oe : ℝ)
    (h : compute_overlap_window t1s t1e t2s t2e = some (os, oe)) :
    os = max t1s t2s ∧ oe = min t1e t2e ∧ t2s ≤ t1e ∧ t1s ≤ t2e := by
  unfold compute_overlap_window at h
  by_cases hov : time_windows_overlap t1s t1e t2s t2e = true
  · rw [if_pos hov] at h
    obtain ⟨h1, h2⟩ := time_windows_overlap_iff t1s t1e t2s t2e |>.mp hov
    injection h with h'
    injection h' with ha hb
    exact ⟨ha.symm, hb.symm, h1, h2⟩
  · rw [if_neg hov] at h
    exact absurd h (by simp)

lemma overlap_none_iff (t1s t1e t2s t2e : ℝ)
    (h1 : t1s ≤ t1e) (h2 : t2s ≤ t2e) :
    compute_overlap_window t1s t1e t2s t2e = none ↔
      min t1e t2e < max t1s t2s := by
  unfold compute_overlap_window
  by_cases hov : time_windows_overlap t1s t1e t2s t2e = true
  · rw [if_pos hov]
    obtain ⟨ha, hb⟩ := time_windows_overlap_iff t1s t1e t2s t2e |>.mp hov
    simp only [reduceCtorEq, false_iff, not_lt]
    exact max_le (le_min h1 hb) (le_min ha h2)
  · rw [if_neg hov]
    have := mt (time_windows_overlap_iff t1s t1e t2s t2e).mpr hov
    push_neg at this
    simp only [true_iff]
    rcases lt_or_le t1e t2s with hc | hc
    · exact lt_of_le_of_lt (min_le_left _ _) (lt_of_lt_of_le hc (le_max_right _ _))
    · exact lt_of_le_of_lt (min_le_right _ _)
        (lt_of_lt_of_le (this hc) (le_max_left _ _))

/-- The overlap window of two well-formed segments is an honest
sub-interval of both segments' spans. -/
lemma overlap_bounds (s1 s2 : Segment) (os oe : ℝ)
    (hw1 : s1.wf) (hw2 : s2.wf)
    (h : compute_overlap_window s1.t_start s1.t_end s2.t_start s2.t_end =
      some (os, oe)) :
    os ≤ oe ∧ s1.t_start ≤ os ∧ s2.t_start ≤ os ∧
      oe ≤ s1.t_end ∧ oe ≤ s2.t_end := by
  obtain ⟨ha, hb, h1, h2⟩ := overlap_some_eq _ _ _ _ _ _ h
  subst ha hb
  refine ⟨?_, le_max_left _ _, le_max_right _ _, min_le_left _ _,
    min_le_right _ _⟩
  exact max_le (le_min hw1 h2) (le_min h1 hw2)

/-- Every sample in the overlap window is inside both segments' spans. -/
lemma overlap_mem_span (s1 s2 : Segment) (os oe : ℝ) (t : ℝ)
    (hw1 : s1.wf) (hw2 : s2.wf)
    (h : compute_overlap_window s1.t_start s1.t_end s2.t_start s2.t_end =
      some (os, oe))
    (ht1 : os ≤ t) (ht2 : t ≤ oe) : inSpan s1 t ∧ inSpan s2 t := by
  obtain ⟨_, hb1, hb2, hb3, hb4⟩ := overlap_bounds s1 s2 os oe hw1 hw2 h
  exact ⟨⟨le_trans hb1 ht1, le_trans ht2 hb3⟩,
    ⟨le_trans hb2 ht1, le_trans ht2 hb4⟩⟩

/-! ## Minimum-tracking loop lemmas -/

lemma trackMin_nil (s1 s2 : Segment) (z : Bool) (st : Option (ℝ × ℝ × List ℝ)) :
    trackMin s1 s2 z [] st = .ok st := rfl

/-- Full characterization of the tracking loop started from an already
tracked state `(d0, t0, p0)`: the loop succeeds, the final minimum is a
lower bound of all sampled distances, and either the initial state
survives (every sample was at distance at least `d0`) or the state was
replaced at the first sample strictly below every distance seen before
it. -/
lemma trackMin_some_spec (s1 s2 : Segment) (z : Bool) :
    ∀ (ts : List ℝ), (∀ t ∈ ts, inSpan s1 t ∧ inSpan s2 t) →
    ∀ (d0 t0 : ℝ) (p0 : List ℝ),
    ∃ d tm pm,
      trackMin s1 s2 z ts (some (d0, t0, p0)) = .ok (some (d, tm, pm)) ∧
      (∀ t ∈ ts, d ≤ distAt s1 s2 z t) ∧
      ((d = d0 ∧ tm = t0 ∧ pm = p0) ∨
       (d < d0 ∧ distAt s1 s2 z tm = d ∧ pm = interp s1 z tm ∧
         ∃ l1 l2, ts = l1 ++ tm :: l2 ∧
           ∀ t ∈ l1, d < distAt s1 s2 z t)) := by
  intro ts
  induction ts with
  | nil =>
    intro _ d0 t0 p0
    exact ⟨d0, t0, p0, rfl, by simp, Or.inl ⟨rfl, rfl, rfl⟩⟩
  | cons t ts ih =>
    intro h d0 t0 p0
    obtain ⟨ht, hts⟩ := List.forall_mem_cons.mp h
    by_cases hlt : distAt s1 s2 z t < d0
    · have hstep : trackMin s1 s2 z (t :: ts) (some (d0, t0, p0)) =
          trackMin s1 s2 z ts (some (distAt s1 s2 z t, t, interp s1 z t)) := by
        conv_lhs => rw [trackMin]
        rw [sampleEval_eq s1 s2 z t ht.1 ht.2]
        exact if_pos hlt
      obtain ⟨d, tm, pm, heq, hbound, hcase⟩ :=
        ih hts (distAt s1 s2 z t) t (interp s1 z t)
      refine ⟨d, tm, pm, hstep.trans heq, ?_, ?_⟩
      · intro t' ht'
        rcases List.mem_cons.mp ht' with rfl | ht'
        · rcases hcase with ⟨hd, _, _⟩ | ⟨hd, _, _⟩
          · exact le_of_eq hd
          · exact le_of_lt hd
        · exact hbound t' ht'
      · right
        rcases hcase with ⟨hd, htm, hpm⟩ | ⟨hd, hdm, hpm, l1, l2, hsplit, hstrict⟩
        · subst htm hpm
          exact ⟨hd ▸ hlt, hd.symm, rfl, [], ts, rfl, by simp⟩
        · refine ⟨lt_trans hd hlt, hdm, hpm, t :: l1, l2,
            by rw [hsplit]; rfl, ?_⟩
          intro t' ht'
          rcases List.mem_cons.mp ht' with rfl | ht'
          · exact hd
          · exact hstrict t' ht'
    · have hstep : trackMin s1 s2 z (t :: ts) (some (d0, t0, p0)) =
          trackMin s1 s2 z ts (some (d0, t0, p0)) := by
        conv_lhs => rw [trackMin]
        rw [sampleEval_eq s1 s2 z t ht.1 ht.2]
        exact if_neg hlt
      have hge : d0 ≤ distAt s1 s2 z t := not_lt.mp hlt
      obtain ⟨d, tm, pm, heq, hbound, hcase⟩ := ih hts d0 t0 p0
      refine ⟨d, tm, pm, hstep.trans heq, ?_, ?_⟩
      · intro t' ht'
        rcases List.mem_cons.mp ht' with rfl | ht'
        · rcases hcase with ⟨hd, _, _⟩ | ⟨hd, _, _⟩
          · exact hd ▸ hge
          · exact le_trans (le_of_lt hd) hge
        · exact hbound t' ht'
      · rcases hcase with ⟨hd, htm, hpm⟩ | ⟨hd, hdm, hpm, l1, l2, hsplit, hstrict⟩
        · exact Or.inl ⟨hd, htm, hpm⟩
        · refine Or.inr ⟨hd, hdm, hpm, t :: l1, l2,
            by rw [hsplit]; rfl, ?_⟩
          intro t' ht'
          rcases List.mem_cons.mp ht' with rfl | ht'
          · exact lt_of_lt_of_le hd hge
          · exact hstrict t' ht'

/-- Characterization of a full run of the tracking loop from the initial
(`inf`) state on a non-empty sample list: it succeeds, reports a sample
time `tm` whose distance is minimal among all samples, the reported
location is the primary segment's interpolated position at `tm`, and
every sample strictly before `tm` in the list has strictly larger
distance (the first minimizer wins). -/
lemma trackMin_run_spec (s1 s2 : Segment) (z : Bool) (ts : List ℝ)
    (hne : ts ≠ []) (h : ∀ t ∈ ts, inSpan s1 t ∧ inSpan s2 t) :
    ∃ d tm pm,
      trackMin s1 s2 z ts none = .ok (some (d, tm, pm)) ∧
      distAt s1 s2 z tm = d ∧ pm = interp s1 z tm ∧
      (∀ t ∈ ts, d ≤ distAt s1 s2 z t) ∧
      ∃ l1 l2, ts = l1 ++ tm :: l2 ∧ ∀ t ∈ l1, d < distAt s1 s2 z t := by
  match ts, hne with
  | t :: rest, _ =>
    obtain ⟨ht, hts⟩ := List.forall_mem_cons.mp h
    have hstep : trackMin s1 s2 z (t :: rest) none =
        trackMin s1 s2 z rest (some (distAt s1 s2 z t, t, interp s1 z t)) := by
      conv_lhs => rw [trackMin]
      rw [sampleEval_eq s1 s2 z t ht.1 ht.2]
    obtain ⟨d, tm, pm, heq, hbound, hcase⟩ :=
      trackMin_some_spec s1 s2 z rest hts (distAt s1 s2 z t) t (interp s1 z t)
    rcases hcase with ⟨hd, htm, hpm⟩ | ⟨hd, hdm, hpm, l1, l2, hsplit, hstrict⟩
    · refine ⟨d, tm, pm, hstep.trans heq, ?_, ?_, ?_, [], rest, ?_, by simp⟩
      · rw [htm, hd]
      · rw [hpm, htm]
      · intro t' ht'
        rcases List.mem_cons.mp ht' with rfl | ht'
        · exact le_of_eq hd
        · exact hbound t' ht'
      · rw [htm]; rfl
    · refine ⟨d, tm, pm, hstep.trans heq, hdm, hpm, ?_,
        t :: l1, l2, by rw [hsplit]; rfl, ?_⟩
      · intro t' ht'
        rcases List.mem_cons.mp ht' with rfl | ht'
        · exact le_of_lt hd
        · exact hbound t' ht'
      · intro t' ht'
        rcases List.mem_cons.mp ht' with rfl | ht'
        · exact hd
        · exact hstrict t' ht'

/-! ## Segment-builder lemmas -/

lemma getD_map_range {α : Type} (g : ℕ → α) (k i : ℕ) (d : α) (h : i < k) :
    (((List.range k).map g).getD i d) = g i := by
  rw [List.getD_eq_getElem?_getD, List.getElem?_map, List.getElem?_range h]
  rfl

lemma legLengths_length (f : Flight) :
    (legLengths f).length = f.waypoints.length - 1 := by
  unfold legLengths
  rw [List.length_map, List.length_zip, List.length_tail]
  exact min_eq_right (Nat.sub_le _ _)

lemma legLengths_nonneg (f : Flight) : ∀ l ∈ legLengths f, 0 ≤ l := by
  intro l hl
  unfold legLengths at hl
  rw [List.mem_map] at hl
  obtain ⟨p, _, rfl⟩ := hl
  exact Real.sqrt_nonneg _

lemma accTimes_length (T D : ℝ) (ls : List ℝ) (c : ℝ) :
    (accTimes T D ls c).length = ls.length := by
  induction ls generalizing c with
  | nil => rfl
  | cons l ls ih => simpa [accTimes] using ih _

lemma accTimes_chain (T D : ℝ) (hT : 0 < T) (hD : 0 ≤ D) :
    ∀ (ls : List ℝ), (∀ l ∈ ls, 0 ≤ l) → ∀ (c : ℝ),
      List.Chain' (· ≤ ·) (c :: accTimes T D ls c) := by
  intro ls
  induction ls with
  | nil => exact fun _ _ => List.chain'_singleton _
  | cons l ls ih =>
    intro h c
    obtain ⟨hl, hls⟩ := List.forall_mem_cons.mp h
    have hstep : c ≤ c + l / T * D := by
      have : 0 ≤ l / T * D :=
        mul_nonneg (div_nonneg hl (le_of_lt hT)) hD
      linarith
    exact List.Chain'.cons hstep (ih hls _)

lemma accTimes_getLastD (T D : ℝ) :
    ∀ (ls : List ℝ) (c : ℝ),
      (c :: accTimes T D ls c).getLastD 0 = c + ls.sum / T * D := by
  intro ls
  induction ls with
  | nil => intro c; simp [accTimes]
  | cons l ls ih =>
    intro c
    show ((c :: (c + l / T * D) :: accTimes T D ls (c + l / T * D))).getLastD 0
      = _
    rw [List.getLastD_cons]
    have h2 : ((c + l / T * D) :: accTimes T D ls (c + l / T * D)).getLastD c
        = ((c + l / T * D) :: accTimes T D ls (c + l / T * D)).getLastD 0 := by
      rw [List.getLastD_cons, List.getLastD_cons]
    rw [h2, ih]
    rw [List.sum_cons]
    ring

lemma sum_dropLast_add_getLastD (ls : List ℝ) (h : ls ≠ []) :
    ls.dropLast.sum + ls.getLastD 0 = ls.sum := by
  conv_rhs => rw [← List.dropLast_append_getLast h]
  rw [List.sum_append, List.sum_singleton, List.getLastD_eq_getLast?,
    List.getLast?_eq_getLast ls h]
  rfl

lemma cst_length (f : Flight) :
    (compute_segment_times f).length = f.waypoints.length := by
  unfold compute_segment_times
  by_cases hT : (legLengths f).sum = 0
  · rw [if_pos hT, linspace_length]
  · rw [if_neg hT]
    have hne : legLengths f ≠ [] := by
      intro hnil
      exact hT (by rw [hnil]; rfl)
    have h1 : 1 ≤ (legLengths f).length := List.length_pos.mpr hne
    rw [legLengths_length] at h1
    rw [List.length_append, List.length_cons, accTimes_length,
      List.length_dropLast, legLengths_length, List.length_singleton]
    omega

lemma cst_head (f : Flight) (h : 1 ≤ f.waypoints.length) :
    ∃ rest, compute_segment_times f = f.t_start :: rest := by
  unfold compute_segment_times
  by_cases hT : (legLengths f).sum = 0
  · rw [if_pos hT]
    exact linspace_head _ _ _ h
  · rw [if_neg hT]
    exact ⟨_, List.cons_append _ _ _⟩

lemma cst_getD_zero (f : Flight) (h : 1 ≤ f.waypoints.length) :
    (compute_segment_times f).getD 0 0 = f.t_start := by
  obtain ⟨rest, hr⟩ := cst_head f h
  rw [hr]
  rfl

lemma linspace_getLastD (a b : ℝ) (m : ℕ) :
    (linspace a b (m + 2)).getLastD 0 = b := by
  show ((List.range (m + 2)).map
    (fun (i : ℕ) => a + (i : ℝ) * (b - a) / ((m : ℝ) + 1))).getLastD 0 = b
  rw [List.range_succ, List.map_append]
  simp only [List.map_cons, List.map_nil, List.getLastD_concat]
  have hne : ((m : ℝ) + 1) ≠ 0 := by positivity
  push_cast
  field_simp

lemma cst_getLastD (f : Flight) (h : 2 ≤ f.waypoints.length) :
    (compute_segment_times f).getLastD 0 = f.t_end := by
  unfold compute_segment_times
  by_cases hT : (legLengths f).sum = 0
  · rw [if_pos hT]
    obtain ⟨m, hm⟩ : ∃ m, f.waypoints.length = m + 2 :=
      ⟨f.waypoints.length - 2, by omega⟩
    rw [hm, linspace_getLastD]
  · rw [if_neg hT, List.getLastD_concat]

lemma cst_chain (f : Flight) (hv : f.valid) :
    List.Chain' (· ≤ ·) (compute_segment_times f) := by
  obtain ⟨hn, hts, _⟩ := hv
  unfold compute_segment_times
  by_cases hT : (legLengths f).sum = 0
  · rw [if_pos hT]
    exact (linspace_sorted _ _ _ (le_of_lt hts)).chain'
  · rw [if_neg hT]
    have hpos : 0 < (legLengths f).sum :=
      lt_of_le_of_ne (List.sum_nonneg (legLengths_nonneg f)) (Ne.symm hT)
    have hne : legLengths f ≠ [] := by
      intro hnil
      exact hT (by rw [hnil]; rfl)
    have hD : (0 : ℝ) ≤ f.t_end - f.t_start := by linarith
    have hdrop : ∀ l ∈ (legLengths f).dropLast, 0 ≤ l := fun l hl =>
      legLengths_nonneg f l (List.dropLast_subset _ hl)
    rw [List.chain'_append]
    refine ⟨accTimes_chain _ _ hpos hD _ hdrop _, List.chain'_singleton _, ?_⟩
    intro x hx y hy
    rw [List.head?_cons, Option.mem_def, Option.some.injEq] at hy
    subst hy
    have hlast := accTimes_getLastD (legLengths f).sum (f.t_end - f.t_start)
      (legLengths f).dropLast f.t_start
    rw [List.getLastD_eq_getLast?, Option.mem_def.mp hx, Option.getD_some]
      at hlast
    have hmem : (legLengths f).getLastD 0 ∈ legLengths f := by
      rw [List.getLastD_eq_getLast?, List.getLast?_eq_getLast _ hne,
        Option.getD_some]
      exact List.getLast_mem hne
    have hS : (legLengths f).dropLast.sum ≤ (legLengths f).sum := by
      have hsum := sum_dropLast_add_getLastD (legLengths f) hne
      have hlast_nonneg := legLengths_nonneg f _ hmem
      linarith
    have hq : (legLengths f).dropLast.sum / (legLengths f).sum ≤ 1 :=
      (div_le_one hpos).mpr hS
    have hmul : (legLengths f).dropLast.sum / (legLengths f).sum *
        (f.t_end - f.t_start) ≤ 1 * (f.t_end - f.t_start) :=
      mul_le_mul_of_nonneg_right hq hD
    rw [hlast]
    linarith

lemma build_segments_length (f : Flight) :
    (build_segments f).length = f.waypoints.length - 1 := by
  unfold build_segments
  rw [List.length_map, List.length_range]

lemma build_segments_getD (f : Flight) (i : ℕ)
    (h : i < f.waypoints.length - 1) :
    (build_segments f).getD i default =
      { start := f.waypoints.getD i default
        stop := f.waypoints.getD (i + 1) default
        t_start := (compute_segment_times f).getD i 0
        t_end := (compute_segment_times f).getD (i + 1) 0
        flight_id := f.id } := by
  unfold build_segments
  exact getD_map_range _ _ _ _ h

lemma cst_mono (f : Flight) (hv : f.valid) (i : ℕ)
    (h : i + 1 < f.waypoints.length) :
    (compute_segment_times f).getD i 0 ≤
      (compute_segment_times f).getD (i + 1) 0 := by
  have hc := cst_chain f hv
  rw [List.chain'_iff_get] at hc
  have hlen := cst_length f
  have h1 : i < (compute_segment_times f).length - 1 := by omega
  have h2 := hc i h1
  rw [List.getD_eq_getElem _ _ (by omega), List.getD_eq_getElem _ _ (by omega)]
  simpa using h2

lemma cst_getD_last (f : Flight) (h : 2 ≤ f.waypoints.length) :
    (compute_segment_times f).getD (f.waypoints.length - 1) 0 = f.t_end := by
  have hlen := cst_length f
  rw [List.getD_eq_getElem _ _ (by omega)]
  have hgl := cst_getLastD f h
  rw [List.getLastD_eq_getLast?, List.getLast?_eq_getElem?] at hgl
  rw [hlen] at hgl
  rw [List.getElem?_eq_getElem (by omega)] at hgl
  simpa using hgl

/-- Claim C3: for every valid Mission with `n` waypoints, `build_segments`
returns exactly `n - 1` Segments whose time spans exactly partition
`[t_start, t_end]`: the first segment starts at the mission's `t_start`,
the last segment ends exactly at the mission's `t_end`, each segment's
end time equals the next segment's start time, and every span has
non-negative duration. -/
theorem build_segments_partition (f : Flight) (hv : f.valid) :
    (build_segments f).length = f.waypoints.length - 1 ∧
    ((build_segments f).getD 0 default).t_start = f.t_start ∧
    ((build_segments f).getD (f.waypoints.length - 2) default).t_end =
      f.t_end ∧
    (∀ i, i + 1 < f.waypoints.length - 1 →
      ((build_segments f).getD i default).t_end =
        ((build_segments f).getD (i + 1) default).t_start) ∧
    (∀ s ∈ build_segments f, s.t_start ≤ s.t_end) := by
  obtain ⟨hn, hts, hsp⟩ := hv
  refine ⟨build_segments_length f, ?_, ?_, ?_, ?_⟩
  · rw [build_segments_getD f 0 (by omega)]
    exact cst_getD_zero f (by omega)
  · rw [build_segments_getD f _ (by omega)]
    have h2 : f.waypoints.length - 2 + 1 = f.waypoints.length - 1 := by omega
    rw [h2]
    exact cst_getD_last f hn
  · intro i hi
    rw [build_segments_getD f i (by omega),
      build_segments_getD f (i + 1) (by omega)]
  · intro s hs
    unfold build_segments at hs
    rw [List.mem_map] at hs
    obtain ⟨i, hi, rfl⟩ := hs
    rw [List.mem_range] at hi
    exact cst_mono f ⟨hn, hts, hsp⟩ i (by omega)

/-- Witness for the segment-partition theorem at a concrete valid
mission with three waypoints. -/
theorem build_segments_partition_witness :
    (Flight.valid ⟨"W3", [⟨0, 0, 0⟩, ⟨30, 0, 0⟩, ⟨30, 40, 0⟩], 0, 100, 5⟩) ∧
    ((build_segments ⟨"W3", [⟨0, 0, 0⟩, ⟨30, 0, 0⟩, ⟨30, 40, 0⟩], 0, 100, 5⟩).length = 2 ∧
     ((build_segments ⟨"W3", [⟨0, 0, 0⟩, ⟨30, 0, 0⟩, ⟨30, 40, 0⟩], 0, 100, 5⟩).getD 0 default).t_start = 0 ∧
     ((build_segments ⟨"W3", [⟨0, 0, 0⟩, ⟨30, 0, 0⟩, ⟨30, 40, 0⟩], 0, 100, 5⟩).getD 1 default).t_end = 100 ∧
     (∀ i, i + 1 < 2 →
       ((build_segments ⟨"W3", [⟨0, 0, 0⟩, ⟨30, 0, 0⟩, ⟨30, 40, 0⟩], 0, 100, 5⟩).getD i default).t_end =
         ((build_segments ⟨"W3", [⟨0, 0, 0⟩, ⟨30, 0, 0⟩, ⟨30, 40, 0⟩], 0, 100, 5⟩).getD (i + 1) default).t_start) ∧
     (∀ s ∈ build_segments ⟨"W3", [⟨0, 0, 0⟩, ⟨30, 0, 0⟩, ⟨30, 40, 0⟩], 0, 100, 5⟩,
       s.t_start ≤ s.t_end)) := by
  have hv : Flight.valid ⟨"W3", [⟨0, 0, 0⟩, ⟨30, 0, 0⟩, ⟨30, 40, 0⟩], 0, 100, 5⟩ := by
    refine ⟨by norm_num, by norm_num, by norm_num⟩
  have h := build_segments_partition
    ⟨"W3", [⟨0, 0, 0⟩, ⟨30, 0, 0⟩, ⟨30, 40, 0⟩], 0, 100, 5⟩ hv
  exact ⟨hv, h⟩

lemma vsub_self (v : List ℝ) : normSq (vsub v v) = 0 := by
  induction v with
  | nil => rfl
  | cons x v ih =>
    unfold vsub normSq at ih ⊢
    rw [List.zipWith_cons_cons, List.map_cons, List.sum_cons, ih]
    ring

lemma distv_self (v : List ℝ) : distv v v = 0 := by
  rw [distv, vsub_self, Real.sqrt_zero]

lemma legLengths_coincident (f : Flight)
    (hco : ∀ w ∈ f.waypoints, ∀ w' ∈ f.waypoints, w = w') :
    ∀ l ∈ legLengths f, l = 0 := by
  intro l hl
  unfold legLengths at hl
  rw [List.mem_map] at hl
  obtain ⟨p, hp, rfl⟩ := hl
  have h1 : p.1 ∈ f.waypoints := (List.of_mem_zip hp).1
  have h2 : p.2 ∈ f.waypoints := List.tail_subset _ (List.of_mem_zip hp).2
  rw [hco p.2 h2 p.1 h1]
  exact distv_self _

/-- Claim C7: for every valid Mission whose waypoints all coincide, the
segment builder allocates time evenly across the waypoints from
`t_start` to `t_end` inclusive (the linspace branch, avoiding the
division by total length); in particular a mission with 3 coincident
waypoints and time window `[0, 10]` yields two segments of 5 seconds
each. -/
theorem compute_segment_times_coincident (f : Flight) (_hv : f.valid)
    (hco : ∀ w ∈ f.waypoints, ∀ w' ∈ f.waypoints, w = w') :
    compute_segment_times f =
      linspace f.t_start f.t_end f.waypoints.length ∧
    (∀ i, i + 1 < f.waypoints.length →
      (compute_segment_times f).getD (i + 1) 0 -
        (compute_segment_times f).getD i 0 =
        (f.t_end - f.t_start) / ((f.waypoints.length : ℝ) - 1)) ∧
    (build_segments ⟨"M", [⟨5, 5, 0⟩, ⟨5, 5, 0⟩, ⟨5, 5, 0⟩], 0, 10, 5⟩).map
      (fun s => (s.t_start, s.t_end)) = [(0, 5), (5, 10)] := by
  have hzero : ∀ (g : Flight),
      (∀ w ∈ g.waypoints, ∀ w' ∈ g.waypoints, w = w') →
      compute_segment_times g =
        linspace g.t_start g.t_end g.waypoints.length := by
    intro g hg
    unfold compute_segment_times
    rw [if_pos]
    have h0 := legLengths_coincident g hg
    exact List.sum_eq_zero h0
  have hmain := hzero f hco
  refine ⟨hmain, ?_, ?_⟩
  · intro i hi
    obtain ⟨m, hm⟩ : ∃ m, f.waypoints.length = m + 2 := ⟨f.waypoints.length - 2, by omega⟩
    rw [hmain, hm]
    have hi' : i + 1 < m + 2 := by omega
    have hg1 : (linspace f.t_start f.t_end (m + 2)).getD (i + 1) 0 =
        f.t_start + ((i : ℝ) + 1) * (f.t_end - f.t_start) / ((m : ℝ) + 1) := by
      rw [List.getD_eq_getElem _ _ (by rw [linspace_length]; omega)]
      have := linspace_get f.t_start f.t_end m (i + 1) hi'
      rw [List.get_eq_getElem] at this
      rw [this]
      push_cast
      ring
    have hg0 : (linspace f.t_start f.t_end (m + 2)).getD i 0 =
        f.t_start + (i : ℝ) * (f.t_end - f.t_start) / ((m : ℝ) + 1) := by
      rw [List.getD_eq_getElem _ _ (by rw [linspace_length]; omega)]
      have := linspace_get f.t_start f.t_end m i (by omega)
      rw [List.get_eq_getElem] at this
      rw [this]
    rw [hg1, hg0]
    push_cast
    ring
  · have hco3 : ∀ w ∈ ([⟨5, 5, 0⟩, ⟨5, 5, 0⟩, ⟨5, 5, 0⟩] : List Waypoint),
        ∀ w' ∈ ([⟨5, 5, 0⟩, ⟨5, 5, 0⟩, ⟨5, 5, 0⟩] : List Waypoint), w = w' := by
      intro w hw w' hw'
      fin_cases hw <;> fin_cases hw' <;> rfl
    have hcst := hzero ⟨"M", [⟨5, 5, 0⟩, ⟨5, 5, 0⟩, ⟨5, 5, 0⟩], 0, 10, 5⟩ hco3
    have hls : linspace (0 : ℝ) 10 3 = [0, 5, 10] := by
      have h := linspace_cons (0 : ℝ) 10 1
      norm_num at h
      rw [h, List.range_succ, List.range_succ, List.range_zero]
      simp only [List.nil_append, List.cons_append, List.map_cons,
        List.map_nil]
      norm_num
    unfold build_segments
    rw [hcst]
    simp only [List.length_cons, List.length_nil]
    rw [hls]
    rw [show (2 + 1 - 1 : ℕ) = 1 + 1 from rfl, List.range_succ,
      List.range_succ, List.range_zero]
    simp only [List.nil_append, List.cons_append, List.map_cons,
      List.map_nil]
    norm_num

/-- Witness for the even-allocation theorem at the concrete coincident
mission from the spec's scenario 4. -/
theorem compute_segment_times_coincident_witness :
    (Flight.valid ⟨"M", [⟨5, 5, 0⟩, ⟨5, 5, 0⟩, ⟨5, 5, 0⟩], 0, 10, 5⟩) ∧
    compute_segment_times ⟨"M", [⟨5, 5, 0⟩, ⟨5, 5, 0⟩, ⟨5, 5, 0⟩], 0, 10, 5⟩ =
      linspace 0 10 3 ∧
    (build_segments ⟨"M", [⟨5, 5, 0⟩, ⟨5, 5, 0⟩, ⟨5, 5, 0⟩], 0, 10, 5⟩).map
      (fun s => (s.t_start, s.t_end)) = [(0, 5), (5, 10)] := by
  have hv : Flight.valid ⟨"M", [⟨5, 5, 0⟩, ⟨5, 5, 0⟩, ⟨5, 5, 0⟩], 0, 10, 5⟩ :=
    ⟨by norm_num, by norm_num, by norm_num⟩
  have hco : ∀ w ∈ ([⟨5, 5, 0⟩, ⟨5, 5, 0⟩, ⟨5, 5, 0⟩] : List Waypoint),
      ∀ w' ∈ ([⟨5, 5, 0⟩, ⟨5, 5, 0⟩, ⟨5, 5, 0⟩] : List Waypoint), w = w' := by
    intro w hw w' hw'
    fin_cases hw <;> fin_cases hw' <;> rfl
  have h := compute_segment_times_coincident
    ⟨"M", [⟨5, 5, 0⟩, ⟨5, 5, 0⟩, ⟨5, 5, 0⟩], 0, 10, 5⟩ hv hco
  exact ⟨hv, h.1, h.2.2⟩

/-- Claim C8: Mission (`Flight`) construction fails if and only if the
waypoint list has fewer than 2 entries, or `t_start` is not strictly
less than `t_end`, or `speed` is not strictly positive; a flight
satisfying all three invariants is always constructed successfully (and
unchanged). -/
theorem mkFlight_spec (id : String) (wps : List Waypoint) (ts te sp : ℝ) :
    (mkFlight id wps ts te sp = .error () ↔
      (wps.length < 2 ∨ ¬ ts < te ∨ ¬ 0 < sp)) ∧
    (2 ≤ wps.length → ts < te → 0 < sp →
      mkFlight id wps ts te sp = .ok ⟨id, wps, ts, te, sp⟩) := by
  unfold mkFlight
  constructor
  · constructor
    · intro h
      by_contra hc
      push_neg at hc
      obtain ⟨h1, h2, h3⟩ := hc
      rw [if_neg (by omega), if_neg (by simp [not_le]; exact h2),
        if_neg (by simp [not_le]; exact h3)] at h
      exact absurd h (by simp)
    · intro h
      rcases h with h1 | h2 | h3
      · rw [if_pos h1]
      · rw [not_lt] at h2
        rcases lt_or_le wps.length 2 with hl | hl
        · rw [if_pos hl]
        · rw [if_neg (by omega), if_pos (by exact h2)]
      · rcases lt_or_le wps.length 2 with hl | hl
        · rw [if_pos hl]
        · rcases le_or_lt te ts with hta | htb
          · rw [if_neg (by omega), if_pos (by exact hta)]
          · rw [not_lt] at h3
            rw [if_neg (by omega), if_neg (by simp [not_le]; exact htb),
              if_pos (by exact h3)]
  · intro h1 h2 h3
    rw [if_neg (by omega), if_neg (by simp [not_le]; exact h2),
      if_neg (by simp [not_le]; exact h3)]

/-- Witness for the construction theorem: a concrete valid flight is
constructed successfully, and a concrete one-waypoint flight fails. -/
theorem mkFlight_spec_witness :
    mkFlight "F" [⟨0, 0, 0⟩, ⟨1, 1, 0⟩] 0 10 5 =
      .ok ⟨"F", [⟨0, 0, 0⟩, ⟨1, 1, 0⟩], 0, 10, 5⟩ ∧
    mkFlight "G" [⟨0, 0, 0⟩] 0 10 5 = .error () := by
  constructor
  · exact (mkFlight_spec "F" [⟨0, 0, 0⟩, ⟨1, 1, 0⟩] 0 10 5).2
      (by norm_num) (by norm_num) (by norm_num)
  · exact (mkFlight_spec "G" [⟨0, 0, 0⟩] 0 10 5).1.mpr
      (Or.inl (by norm_num))

/-- Claim C5: `position_at_time` fails (raises) if and only if `t` is
outside `[t_start, t_end]`; for a zero-duration segment it returns the
start position for every in-range `t`; otherwise it returns
`start + ((t - t_start) / (t_end - t_start)) * (end - start)`
componentwise over the 2- or 3-dimensional coordinate array chosen by
the caller's dimensionality flag. -/
theorem position_at_time_spec (s : Segment) (t : ℝ) (z : Bool) :
    (s.position_at_time t z = none ↔ (t < s.t_start ∨ t > s.t_end)) ∧
    (¬(t < s.t_start ∨ t > s.t_end) → s.t_start = s.t_end →
      s.position_at_time t z = some (s.start.to_array z)) ∧
    (¬(t < s.t_start ∨ t > s.t_end) → s.t_start ≠ s.t_end →
      s.position_at_time t z = some (List.zipWith
        (fun a b => a + (t - s.t_start) / (s.t_end - s.t_start) * (b - a))
        (s.start.to_array z) (s.stop.to_array z))) ∧
    (s.start.to_array z).length = (if z then 3 else 2) := by
  refine ⟨position_at_time_none_iff s t z, ?_, ?_, ?_⟩
  · intro hin he
    unfold Segment.position_at_time
    rw [if_neg hin, if_pos he]
  · intro hin he
    unfold Segment.position_at_time
    rw [if_neg hin, if_neg he]
  · unfold Waypoint.to_array
    by_cases hz : z
    · rw [if_pos hz, if_pos hz]
      rfl
    · rw [if_neg hz, if_neg hz]
      rfl

/-- Witness for the interpolation theorem: the midpoint of a concrete
segment, an out-of-range failure, and a zero-duration segment. -/
theorem position_at_time_spec_witness :
    Segment.position_at_time ⟨⟨0, 0, 0⟩, ⟨10, 0, 0⟩, 0, 10, "W"⟩ 5 false =
      some [5, 0] ∧
    Segment.position_at_time ⟨⟨0, 0, 0⟩, ⟨10, 0, 0⟩, 0, 10, "W"⟩ 11 false =
      none ∧
    Segment.position_at_time ⟨⟨3, 4, 0⟩, ⟨7, 8, 0⟩, 2, 2, "W"⟩ 2 false =
      some [3, 4] := by
  refine ⟨?_, ?_, ?_⟩
  · have h := (position_at_time_spec ⟨⟨0, 0, 0⟩, ⟨10, 0, 0⟩, 0, 10, "W"⟩
      5 false).2.2.1 (by norm_num) (by norm_num)
    rw [h]
    norm_num [Waypoint.to_array]
  · exact (position_at_time_spec ⟨⟨0, 0, 0⟩, ⟨10, 0, 0⟩, 0, 10, "W"⟩
      11 false).1.mpr (Or.inr (by norm_num))
  · have h := (position_at_time_spec ⟨⟨3, 4, 0⟩, ⟨7, 8, 0⟩, 2, 2, "W"⟩
      2 false).2.1 (by norm_num) (by norm_num)
    rw [h]
    norm_num [Waypoint.to_array]

/-! ## Detector characterization -/

/-- Full characterization of a `segment_conflict` run once the overlap
window is known: the tracked minimum is a sampled distance that bounds
all sampled distances from below, every earlier sample is strictly
farther, and the outcome is a conflict record exactly when the minimum
is below the buffer. -/
lemma segment_conflict_run (s1 s2 : Segment) (buf : ℝ) (z : Bool) (K : ℕ)
    (os oe : ℝ)
    (hov : compute_overlap_window s1.t_start s1.t_end s2.t_start s2.t_end =
      some (os, oe))
    (hmem : ∀ t ∈ linspace os oe K, inSpan s1 t ∧ inSpan s2 t)
    (hne : linspace os oe K ≠ []) :
    ∃ d tm,
      distAt s1 s2 z tm = d ∧ tm ∈ linspace os oe K ∧
      (∀ t ∈ linspace os oe K, d ≤ distAt s1 s2 z t) ∧
      (∃ l1 l2, linspace os oe K = l1 ++ tm :: l2 ∧
        ∀ t ∈ l1, d < distAt s1 s2 z t) ∧
      segment_conflict s1 s2 buf z K =
        .ok (if d < buf then some
          { primary_flight_id := s1.flight_id
            conflicting_flight_id := s2.flight_id
            location := interp s1 z tm
            time := tm
            min_distance := d
            safety_buffer := buf } else none) := by
  obtain ⟨d, tm, pm, heq, hdm, hpm, hbound, l1, l2, hsplit, hstrict⟩ :=
    trackMin_run_spec s1 s2 z (linspace os oe K) hne hmem
  refine ⟨d, tm, hdm, ?_, hbound, ⟨l1, l2, hsplit, hstrict⟩, ?_⟩
  · rw [hsplit]
    exact List.mem_append_right _ (List.mem_cons_self _ _)
  · unfold segment_conflict
    rw [hov]
    dsimp only
    rw [heq]
    dsimp only
    rw [hpm]
    by_cases hb : d < buf
    · rw [if_pos hb, if_pos hb]
    · rw [if_neg hb, if_neg hb]

/-- For well-formed segments `segment_conflict` never raises: every
sample lies in the overlap window, hence in both segments' spans. -/
lemma segment_conflict_no_error (s1 s2 : Segment) (hw1 : s1.wf)
    (hw2 : s2.wf) (buf : ℝ) (z : Bool) (K : ℕ) :
    segment_conflict s1 s2 buf z K ≠ .error () := by
  cases hov : compute_overlap_window s1.t_start s1.t_end
      s2.t_start s2.t_end with
  | none =>
    unfold segment_conflict
    rw [hov]
    simp
  | some p =>
    obtain ⟨os, oe⟩ := p
    have hoo : os ≤ oe := (overlap_bounds s1 s2 os oe hw1 hw2 hov).1
    have hmem : ∀ t ∈ linspace os oe K, inSpan s1 t ∧ inSpan s2 t := by
      intro t ht
      obtain ⟨h1, h2⟩ := linspace_mem os oe K t hoo ht
      exact overlap_mem_span s1 s2 os oe t hw1 hw2 hov h1 h2
    by_cases hne : linspace os oe K = []
    · unfold segment_conflict
      rw [hov]
      dsimp only
      rw [hne, trackMin_nil]
      simp
    · obtain ⟨d, tm, _, _, _, _, heval⟩ :=
        segment_conflict_run s1 s2 buf z K os oe hov hmem hne
      rw [heval]
      simp

/-- Claim C9: the standard detector's `segment_conflict` and the enhanced
detector's `segment_conflict_high_accuracy` (and its backward-compatible
wrapper) return equal results on all inputs: they are the same algorithm
parameterized only by the sample count. -/
theorem detectors_equal (seg1 seg2 : Segment) (safety_buffer : ℝ)
    (include_z : Bool) (time_samples : ℕ) :
    Enhanced.segment_conflict_high_accuracy seg1 seg2 safety_buffer
      include_z time_samples =
      segment_conflict seg1 seg2 safety_buffer include_z time_samples ∧
    Enhanced.segment_conflict seg1 seg2 safety_buffer include_z
      time_samples =
      segment_conflict seg1 seg2 safety_buffer include_z time_samples :=
  ⟨rfl, rfl⟩

/-- Claim C6: for well-formed segments whose time windows intersect, every
sample timestamp generated by `segment_conflict` lies within both
segments' time spans, so the out-of-range error branch of
`position_at_time` is unreachable from the detector: `segment_conflict`
never raises. -/
theorem sampling_within_spans (s1 s2 : Segment) (hw1 : s1.wf)
    (hw2 : s2.wf) (os oe : ℝ)
    (hov : compute_overlap_window s1.t_start s1.t_end s2.t_start s2.t_end =
      some (os, oe)) (K : ℕ) :
    (∀ t ∈ linspace os oe K, inSpan s1 t ∧ inSpan s2 t) ∧
    (∀ buf z, segment_conflict s1 s2 buf z K ≠ .error ()) := by
  have hoo : os ≤ oe := (overlap_bounds s1 s2 os oe hw1 hw2 hov).1
  refine ⟨?_, ?_⟩
  · intro t ht
    obtain ⟨h1, h2⟩ := linspace_mem os oe K t hoo ht
    exact overlap_mem_span s1 s2 os oe t hw1 hw2 hov h1 h2
  · intro buf z
    exact segment_conflict_no_error s1 s2 hw1 hw2 buf z K

/-- Witness for the sampling-containment theorem at concrete crossing
segments. -/
theorem sampling_within_spans_witness :
    segE.wf ∧ segW.wf ∧
    compute_overlap_window segE.t_start segE.t_end segW.t_start
      segW.t_end = some (0, 2) ∧
    ((∀ t ∈ linspace 0 2 20, inSpan segE t ∧ inSpan segW t) ∧
     (∀ buf z, segment_conflict segE segW buf z 20 ≠ .error ())) := by
  have hw1 : segE.wf := by norm_num [Segment.wf, segE]
  have hw2 : segW.wf := by norm_num [Segment.wf, segW]
  have hov : compute_overlap_window segE.t_start segE.t_end segW.t_start
      segW.t_end = some (0, 2) := by
    unfold compute_overlap_window time_windows_overlap segE segW
    norm_num
  exact ⟨hw1, hw2, hov, sampling_within_spans segE segW hw1 hw2 0 2 hov 20⟩

/-- Claim C4: for well-formed segments and a positive sample count,
`segment_conflict` returns `none` when the time windows are disjoint
(max of starts exceeds min of ends) regardless of spatial proximity;
when the windows intersect it returns a `Conflict` if and only if the
minimum sampled distance is strictly below the safety buffer, and that
conflict carries the two flight ids, the minimum sampled distance, the
minimizing sample time, the primary segment's interpolated position at
that time, and the buffer used. -/
theorem segment_conflict_spec (s1 s2 : Segment) (buf : ℝ) (z : Bool)
    (K : ℕ) (hw1 : s1.wf) (hw2 : s2.wf) (hK : 1 ≤ K) :
    (min s1.t_end s2.t_end < max s1.t_start s2.t_start →
      segment_conflict s1 s2 buf z K = .ok none) ∧
    (max s1.t_start s2.t_start ≤ min s1.t_end s2.t_end →
      ∃ d tm,
        distAt s1 s2 z tm = d ∧
        tm ∈ linspace (max s1.t_start s2.t_start)
          (min s1.t_end s2.t_end) K ∧
        (∀ t ∈ linspace (max s1.t_start s2.t_start)
          (min s1.t_end s2.t_end) K, d ≤ distAt s1 s2 z t) ∧
        segment_conflict s1 s2 buf z K =
          .ok (if d < buf then some
            { primary_flight_id := s1.flight_id
              conflicting_flight_id := s2.flight_id
              location := interp s1 z tm
              time := tm
              min_distance := d
              safety_buffer := buf } else none)) := by
  constructor
  · intro hlt
    unfold segment_conflict
    rw [(overlap_none_iff s1.t_start s1.t_end s2.t_start s2.t_end
      hw1 hw2).mpr hlt]
  · intro hle
    have hov : compute_overlap_window s1.t_start s1.t_end s2.t_start
        s2.t_end = some (max s1.t_start s2.t_start,
          min s1.t_end s2.t_end) := by
      unfold compute_overlap_window
      rw [if_pos]
      rw [time_windows_overlap_iff]
      constructor
      · exact le_trans (le_trans (le_max_right _ _) hle) (min_le_left _ _)
      · exact le_trans (le_trans (le_max_left _ _) hle) (min_le_right _ _)
    have hmem : ∀ t ∈ linspace (max s1.t_start s2.t_start)
        (min s1.t_end s2.t_end) K, inSpan s1 t ∧ inSpan s2 t := by
      intro t ht
      obtain ⟨h1, h2⟩ := linspace_mem _ _ K t hle ht
      exact overlap_mem_span s1 s2 _ _ t hw1 hw2 hov h1 h2
    have hne : linspace (max s1.t_start s2.t_start)
        (min s1.t_end s2.t_end) K ≠ [] := by
      intro hnil
      have := linspace_length (max s1.t_start s2.t_start)
        (min s1.t_end s2.t_end) K
      rw [hnil] at this
      simp at this
      omega
    obtain ⟨d, tm, hdm, htm, hbound, _, heval⟩ :=
      segment_conflict_run s1 s2 buf z K _ _ hov hmem hne
    exact ⟨d, tm, hdm, htm, hbound, heval⟩

/-- Claim C10: when several sample timestamps attain the same minimum
distance, `segment_conflict` reports the earliest such sample (the
tracked minimum is replaced only by a strictly smaller distance), with
the primary position at that earliest timestamp. -/
theorem conflict_time_earliest (s1 s2 : Segment) (buf : ℝ) (z : Bool)
    (K : ℕ) (hw1 : s1.wf) (hw2 : s2.wf) (c : Conflict)
    (h : segment_conflict s1 s2 buf z K = .ok (some c)) :
    ∃ os oe,
      compute_overlap_window s1.t_start s1.t_end s2.t_start s2.t_end =
        some (os, oe) ∧
      c.time ∈ linspace os oe K ∧
      distAt s1 s2 z c.time = c.min_distance ∧
      c.location = interp s1 z c.time ∧
      (∀ t ∈ linspace os oe K, c.min_distance ≤ distAt s1 s2 z t) ∧
      (∀ t ∈ linspace os oe K,
        distAt s1 s2 z t = c.min_distance → c.time ≤ t) := by
  cases hov : compute_overlap_window s1.t_start s1.t_end
      s2.t_start s2.t_end with
  | none =>
    unfold segment_conflict at h
    rw [hov] at h
    exact absurd h (by simp)
  | some p =>
    obtain ⟨os, oe⟩ := p
    have hoo : os ≤ oe := (overlap_bounds s1 s2 os oe hw1 hw2 hov).1
    have hmem : ∀ t ∈ linspace os oe K, inSpan s1 t ∧ inSpan s2 t := by
      intro t ht
      obtain ⟨h1, h2⟩ := linspace_mem os oe K t hoo ht
      exact overlap_mem_span s1 s2 os oe t hw1 hw2 hov h1 h2
    by_cases hne : linspace os oe K = []
    · unfold segment_conflict at h
      rw [hov] at h
      dsimp only at h
      rw [hne, trackMin_nil] at h
      exact absurd h (by simp)
    · obtain ⟨d, tm, pm, heq, hdm, hpm, hbound, l1, l2, hsplit, hstrict⟩ :=
        trackMin_run_spec s1 s2 z (linspace os oe K) hne hmem
      unfold segment_conflict at h
      rw [hov] at h
      dsimp only at h
      rw [heq] at h
      dsimp only at h
      by_cases hb : d < buf
      · rw [if_pos hb] at h
        have hc : (⟨s1.flight_id, s2.flight_id, pm, tm, d, buf⟩ : Conflict)
            = c := Option.some.inj (Except.ok.inj h)
        have htime : c.time = tm := by rw [← hc]
        have hmind : c.min_distance = d := by rw [← hc]
        have hloc : c.location = pm := by rw [← hc]
        refine ⟨os, oe, rfl, ?_, ?_, ?_, ?_, ?_⟩
        · rw [htime, hsplit]
          exact List.mem_append_right _ (List.mem_cons_self _ _)
        · rw [htime, hmind]
          exact hdm
        · rw [htime, hloc]
          exact hpm
        · intro t ht
          rw [hmind]
          exact hbound t ht
        · intro t ht hdt
          rw [htime]
          have hsor := linspace_sorted os oe K hoo
          rw [hsplit] at hsor
          rw [hsplit] at ht
          rcases List.mem_append.mp ht with h1 | h2
          · exfalso
            have := hstrict t h1
            rw [hdt, hmind] at this
            exact lt_irrefl d this
          · rcases List.mem_cons.mp h2 with rfl | h3
            · exact le_refl _
            · have hpw := (List.pairwise_append.mp hsor).2.1
              exact (List.pairwise_cons.mp hpw).1 t h3
      · rw [if_neg hb] at h
        exact absurd h (by simp)

/-! ## Concrete-evaluation infrastructure -/

lemma sqrt_of_sq {x y : ℝ} (hy : 0 ≤ y) (h : y ^ 2 = x) :
    Real.sqrt x = y := by
  rw [← h, Real.sqrt_sq hy]

lemma zipWith_id_interp (al : ℝ) (v : List ℝ) :
    List.zipWith (fun a b => a + al * (b - a)) v v = v := by
  induction v with
  | nil => rfl
  | cons x v ih =>
    rw [List.zipWith_cons_cons, ih]
    congr 1
    ring

/-- A stationary segment (coincident endpoints) interpolates to its
start position at every time. -/
lemma interp_const (s : Segment) (z : Bool) (t : ℝ)
    (hss : s.start = s.stop) : interp s z t = s.start.to_array z := by
  unfold interp
  by_cases he : s.t_start = s.t_end
  · rw [if_pos he]
  · rw [if_neg he, ← hss, zipWith_id_interp]

lemma trackMin_cons_none (s1 s2 : Segment) (z : Bool) (t : ℝ) (ts : List ℝ)
    (h1 : inSpan s1 t) (h2 : inSpan s2 t) :
    trackMin s1 s2 z (t :: ts) none =
      trackMin s1 s2 z ts (some (distAt s1 s2 z t, t, interp s1 z t)) := by
  conv_lhs => rw [trackMin]
  rw [sampleEval_eq s1 s2 z t h1 h2]

lemma trackMin_cons_lt (s1 s2 : Segment) (z : Bool) (t : ℝ) (ts : List ℝ)
    (d0 t0 : ℝ) (p0 : List ℝ) (h1 : inSpan s1 t) (h2 : inSpan s2 t)
    (hlt : distAt s1 s2 z t < d0) :
    trackMin s1 s2 z (t :: ts) (some (d0, t0, p0)) =
      trackMin s1 s2 z ts (some (distAt s1 s2 z t, t, interp s1 z t)) := by
  conv_lhs => rw [trackMin]
  rw [sampleEval_eq s1 s2 z t h1 h2]
  exact if_pos hlt

lemma trackMin_cons_ge (s1 s2 : Segment) (z : Bool) (t : ℝ) (ts : List ℝ)
    (d0 t0 : ℝ) (p0 : List ℝ) (h1 : inSpan s1 t) (h2 : inSpan s2 t)
    (hge : ¬ distAt s1 s2 z t < d0) :
    trackMin s1 s2 z (t :: ts) (some (d0, t0, p0)) =
      trackMin s1 s2 z ts (some (d0, t0, p0)) := by
  conv_lhs => rw [trackMin]
  rw [sampleEval_eq s1 s2 z t h1 h2]
  exact if_neg hge

/-- On a sample list with constant distance `c`, the tracking loop keeps
the first sample (strict-inequality replacement never fires). -/
lemma trackMin_const (s1 s2 : Segment) (z : Bool) (ts : List ℝ) (c : ℝ)
    (hmem : ∀ t ∈ ts, inSpan s1 t ∧ inSpan s2 t)
    (hconst : ∀ t ∈ ts, distAt s1 s2 z t = c) (t0 : ℝ) (rest : List ℝ)
    (hts : ts = t0 :: rest) :
    trackMin s1 s2 z ts none = .ok (some (c, t0, interp s1 z t0)) := by
  have hne : ts ≠ [] := by rw [hts]; simp
  obtain ⟨d, tm, pm, heq, hdm, hpm, hbound, l1, l2, hsplit, hstrict⟩ :=
    trackMin_run_spec s1 s2 z ts hne hmem
  have htm_mem : tm ∈ ts := by
    rw [hsplit]
    exact List.mem_append_right _ (List.mem_cons_self _ _)
  have hd : d = c := by rw [← hdm, hconst tm htm_mem]
  have hl1 : l1 = [] := by
    cases l1 with
    | nil => rfl
    | cons a l1' =>
      exfalso
      have ha_mem : a ∈ ts := by
        rw [hsplit]
        exact List.mem_append_left _ (List.mem_cons_self _ _)
      have hstr := hstrict a (List.mem_cons_self a l1')
      rw [hconst a ha_mem, hd] at hstr
      exact lt_irrefl c hstr
  rw [hl1, List.nil_append] at hsplit
  rw [hts] at hsplit
  have htm0 : t0 = tm := by injection hsplit
  rw [← htm0] at heq hpm
  rw [heq, hd, hpm]

/-- `linspace 0 10 2` evaluates to `[0, 10]`. -/
lemma linspace_0_10_2 : linspace (0 : ℝ) 10 2 = [0, 10] := by
  have h := linspace_cons (0 : ℝ) 10 0
  norm_num at h
  rw [h, show List.range 1 = [0] from rfl]
  norm_num

/-- `linspace 0 10 3` evaluates to `[0, 5, 10]`. -/
lemma linspace_0_10_3 : linspace (0 : ℝ) 10 3 = [0, 5, 10] := by
  have h := linspace_cons (0 : ℝ) 10 1
  norm_num at h
  rw [h, List.range_succ, show List.range 1 = [0] from rfl]
  norm_num

/-- `linspace 0 2 3` evaluates to `[0, 1, 2]`. -/
lemma linspace_0_2_3 : linspace (0 : ℝ) 2 3 = [0, 1, 2] := by
  have h := linspace_cons (0 : ℝ) 2 1
  norm_num at h
  rw [h, List.range_succ, show List.range 1 = [0] from rfl]
  norm_num

/-- `linspace 0 2 4` evaluates to `[0, 2/3, 4/3, 2]`. -/
lemma linspace_0_2_4 : linspace (0 : ℝ) 2 4 = [0, 2/3, 4/3, 2] := by
  have h := linspace_cons (0 : ℝ) 2 2
  norm_num at h
  rw [h, List.range_succ, List.range_succ, show List.range 1 = [0] from rfl]
  norm_num

/-- A pair of stationary segments at constant distance `c < buf` yields a
conflict timed at the start of the overlap window (the first sample). -/
lemma segment_conflict_stationary (s1 s2 : Segment) (z : Bool)
    (hw1 : s1.wf) (hw2 : s2.wf)
    (h1 : s1.start = s1.stop) (h2 : s2.start = s2.stop)
    (os oe : ℝ)
    (hov : compute_overlap_window s1.t_start s1.t_end s2.t_start s2.t_end =
      some (os, oe))
    (c : ℝ) (hc : distv (s1.start.to_array z) (s2.start.to_array z) = c)
    (buf : ℝ) (hbuf : c < buf) (K : ℕ) (hK : 1 ≤ K) :
    segment_conflict s1 s2 buf z K = .ok (some
      { primary_flight_id := s1.flight_id
        conflicting_flight_id := s2.flight_id
        location := s1.start.to_array z
        time := os
        min_distance := c
        safety_buffer := buf }) := by
  have hoo : os ≤ oe := (overlap_bounds s1 s2 os oe hw1 hw2 hov).1
  have hmem : ∀ t ∈ linspace os oe K, inSpan s1 t ∧ inSpan s2 t := by
    intro t ht
    obtain ⟨ha, hb⟩ := linspace_mem os oe K t hoo ht
    exact overlap_mem_span s1 s2 os oe t hw1 hw2 hov ha hb
  have hconst : ∀ t ∈ linspace os oe K, distAt s1 s2 z t = c := by
    intro t _
    unfold distAt
    rw [interp_const s1 z t h1, interp_const s2 z t h2, hc]
  obtain ⟨rest, hcons⟩ := linspace_head os oe K hK
  have htrack := trackMin_const s1 s2 z (linspace os oe K) c hmem hconst
    os rest hcons
  unfold segment_conflict
  rw [hov]
  dsimp only
  rw [htrack]
  dsimp only
  rw [if_pos hbuf, interp_const s1 z os h1]

lemma build_flightP : build_segments flightP =
    [⟨⟨0, 0, 0⟩, ⟨0, 0, 0⟩, 0, 5, "P"⟩, ⟨⟨0, 0, 0⟩, ⟨0, 0, 0⟩, 5, 10, "P"⟩] := by
  have hco : ∀ w ∈ flightP.waypoints, ∀ w' ∈ flightP.waypoints, w = w' := by
    intro w hw w' hw'
    fin_cases hw <;> fin_cases hw' <;> rfl
  have hcst : compute_segment_times flightP = [0, 5, 10] := by
    unfold compute_segment_times
    rw [if_pos (List.sum_eq_zero (legLengths_coincident flightP hco))]
    exact linspace_0_10_3
  unfold build_segments
  rw [hcst]
  rfl

lemma build_flightA : build_segments flightA =
    [⟨⟨1, 0, 0⟩, ⟨1, 0, 0⟩, 0, 10, "A"⟩] := by
  have hco : ∀ w ∈ flightA.waypoints, ∀ w' ∈ flightA.waypoints, w = w' := by
    intro w hw w' hw'
    fin_cases hw <;> fin_cases hw' <;> rfl
  have hcst : compute_segment_times flightA = [0, 10] := by
    unfold compute_segment_times
    rw [if_pos (List.sum_eq_zero (legLengths_coincident flightA hco))]
    exact linspace_0_10_2
  unfold build_segments
  rw [hcst]
  rfl

lemma build_flightB : build_segments flightB =
    [⟨⟨2, 0, 0⟩, ⟨2, 0, 0⟩, 0, 10, "B"⟩] := by
  have hco : ∀ w ∈ flightB.waypoints, ∀ w' ∈ flightB.waypoints, w = w' := by
    intro w hw w' hw'
    fin_cases hw <;> fin_cases hw' <;> rfl
  have hcst : compute_segment_times flightB = [0, 10] := by
    unfold compute_segment_times
    rw [if_pos (List.sum_eq_zero (legLengths_coincident flightB hco))]
    exact linspace_0_10_2
  unfold build_segments
  rw [hcst]
  rfl

lemma overlap_05_010 : compute_overlap_window (0 : ℝ) 5 0 10 =
    some (0, 5) := by
  unfold compute_overlap_window
  rw [if_pos ((time_windows_overlap_iff 0 5 0 10).mpr
    ⟨by norm_num, by norm_num⟩)]
  norm_num [max_def, min_def]

lemma overlap_510_010 : compute_overlap_window (5 : ℝ) 10 0 10 =
    some (5, 10) := by
  unfold compute_overlap_window
  rw [if_pos ((time_windows_overlap_iff 5 10 0 10).mpr
    ⟨by norm_num, by norm_num⟩)]
  norm_num [max_def, min_def]

lemma dist_01 : distv (Waypoint.to_array ⟨0, 0, 0⟩ false)
    (Waypoint.to_array ⟨1, 0, 0⟩ false) = 1 := by
  have harg : normSq (vsub (Waypoint.to_array ⟨0, 0, 0⟩ false)
      (Waypoint.to_array ⟨1, 0, 0⟩ false)) = 1 := by
    norm_num [normSq, vsub, Waypoint.to_array]
  unfold distv
  rw [harg, Real.sqrt_one]

lemma dist_02 : distv (Waypoint.to_array ⟨0, 0, 0⟩ false)
    (Waypoint.to_array ⟨2, 0, 0⟩ false) = 2 := by
  have harg : normSq (vsub (Waypoint.to_array ⟨0, 0, 0⟩ false)
      (Waypoint.to_array ⟨2, 0, 0⟩ false)) = 4 := by
    norm_num [normSq, vsub, Waypoint.to_array]
  unfold distv
  rw [harg]
  exact sqrt_of_sq (by norm_num) (by norm_num)

lemma conflict_PA0 :
    segment_conflict ⟨⟨0, 0, 0⟩, ⟨0, 0, 0⟩, 0, 5, "P"⟩
      ⟨⟨1, 0, 0⟩, ⟨1, 0, 0⟩, 0, 10, "A"⟩ 10 false 20 =
    .ok (some ⟨"P", "A", [0, 0], 0, 1, 10⟩) := by
  have h := segment_conflict_stationary ⟨⟨0, 0, 0⟩, ⟨0, 0, 0⟩, 0, 5, "P"⟩
    ⟨⟨1, 0, 0⟩, ⟨1, 0, 0⟩, 0, 10, "A"⟩ false
    (by norm_num [Segment.wf]) (by norm_num [Segment.wf]) rfl rfl
    0 5 overlap_05_010 1 dist_01 10 (by norm_num) 20 (by norm_num)
  exact h

lemma conflict_PA5 :
    segment_conflict ⟨⟨0, 0, 0⟩, ⟨0, 0, 0⟩, 5, 10, "P"⟩
      ⟨⟨1, 0, 0⟩, ⟨1, 0, 0⟩, 0, 10, "A"⟩ 10 false 20 =
    .ok (some ⟨"P", "A", [0, 0], 5, 1, 10⟩) := by
  have h := segment_conflict_stationary ⟨⟨0, 0, 0⟩, ⟨0, 0, 0⟩, 5, 10, "P"⟩
    ⟨⟨1, 0, 0⟩, ⟨1, 0, 0⟩, 0, 10, "A"⟩ false
    (by norm_num [Segment.wf]) (by norm_num [Segment.wf]) rfl rfl
    5 10 overlap_510_010 1 dist_01 10 (by norm_num) 20 (by norm_num)
  exact h

lemma conflict_PB0 :
    segment_conflict ⟨⟨0, 0, 0⟩, ⟨0, 0, 0⟩, 0, 5, "P"⟩
      ⟨⟨2, 0, 0⟩, ⟨2, 0, 0⟩, 0, 10, "B"⟩ 10 false 20 =
    .ok (some ⟨"P", "B", [0, 0], 0, 2, 10⟩) := by
  have h := segment_conflict_stationary ⟨⟨0, 0, 0⟩, ⟨0, 0, 0⟩, 0, 5, "P"⟩
    ⟨⟨2, 0, 0⟩, ⟨2, 0, 0⟩, 0, 10, "B"⟩ false
    (by norm_num [Segment.wf]) (by norm_num [Segment.wf]) rfl rfl
    0 5 overlap_05_010 2 dist_02 10 (by norm_num) 20 (by norm_num)
  exact h

lemma conflict_PB5 :
    segment_conflict ⟨⟨0, 0, 0⟩, ⟨0, 0, 0⟩, 5, 10, "P"⟩
      ⟨⟨2, 0, 0⟩, ⟨2, 0, 0⟩, 0, 10, "B"⟩ 10 false 20 =
    .ok (some ⟨"P", "B", [0, 0], 5, 2, 10⟩) := by
  have h := segment_conflict_stationary ⟨⟨0, 0, 0⟩, ⟨0, 0, 0⟩, 5, 10, "P"⟩
    ⟨⟨2, 0, 0⟩, ⟨2, 0, 0⟩, 0, 10, "B"⟩ false
    (by norm_num [Segment.wf]) (by norm_num [Segment.wf]) rfl rfl
    5 10 overlap_510_010 2 dist_02 10 (by norm_num) 20 (by norm_num)
  exact h

lemma runPairs_nil (buf : ℝ) (z : Bool) (K : ℕ) (acc : List Conflict) :
    runPairs buf z K [] acc = .ok acc := rfl

lemma runPairs_cons_some (buf : ℝ) (z : Bool) (K : ℕ) (p s : Segment)
    (rest : List (Segment × Segment)) (acc : List Conflict) (c : Conflict)
    (h : segment_conflict p s buf z K = .ok (some c)) :
    runPairs buf z K ((p, s) :: rest) acc =
      runPairs buf z K rest (acc ++ [c]) := by
  conv_lhs => rw [runPairs]
  rw [h]

lemma missionPairs_eval : missionPairs flightP [flightA, flightB] =
    [(⟨⟨0, 0, 0⟩, ⟨0, 0, 0⟩, 0, 5, "P"⟩, ⟨⟨1, 0, 0⟩, ⟨1, 0, 0⟩, 0, 10, "A"⟩),
     (⟨⟨0, 0, 0⟩, ⟨0, 0, 0⟩, 5, 10, "P"⟩, ⟨⟨1, 0, 0⟩, ⟨1, 0, 0⟩, 0, 10, "A"⟩),
     (⟨⟨0, 0, 0⟩, ⟨0, 0, 0⟩, 0, 5, "P"⟩, ⟨⟨2, 0, 0⟩, ⟨2, 0, 0⟩, 0, 10, "B"⟩),
     (⟨⟨0, 0, 0⟩, ⟨0, 0, 0⟩, 5, 10, "P"⟩, ⟨⟨2, 0, 0⟩, ⟨2, 0, 0⟩, 0, 10, "B"⟩)] := by
  unfold missionPairs
  simp only [List.flatMap_cons, List.flatMap_nil, build_flightP,
    build_flightA, build_flightB]
  rfl

lemma missionPairsClaimed_eval :
    missionPairsClaimed flightP [flightA, flightB] =
    [(⟨⟨0, 0, 0⟩, ⟨0, 0, 0⟩, 0, 5, "P"⟩, ⟨⟨1, 0, 0⟩, ⟨1, 0, 0⟩, 0, 10, "A"⟩),
     (⟨⟨0, 0, 0⟩, ⟨0, 0, 0⟩, 0, 5, "P"⟩, ⟨⟨2, 0, 0⟩, ⟨2, 0, 0⟩, 0, 10, "B"⟩),
     (⟨⟨0, 0, 0⟩, ⟨0, 0, 0⟩, 5, 10, "P"⟩, ⟨⟨1, 0, 0⟩, ⟨1, 0, 0⟩, 0, 10, "A"⟩),
     (⟨⟨0, 0, 0⟩, ⟨0, 0, 0⟩, 5, 10, "P"⟩, ⟨⟨2, 0, 0⟩, ⟨2, 0, 0⟩, 0, 10, "B"⟩)] := by
  unfold missionPairsClaimed
  simp only [List.flatMap_cons, List.flatMap_nil, build_flightP,
    build_flightA, build_flightB]
  rfl

lemma check_mission_eval : check_mission flightP [flightA, flightB] 10 false =
    .ok (false, [⟨"P", "A", [0, 0], 0, 1, 10⟩, ⟨"P", "A", [0, 0], 5, 1, 10⟩,
      ⟨"P", "B", [0, 0], 0, 2, 10⟩, ⟨"P", "B", [0, 0], 5, 2, 10⟩]) := by
  unfold check_mission
  rw [missionPairs_eval,
    runPairs_cons_some _ _ _ _ _ _ _ _ conflict_PA0,
    runPairs_cons_some _ _ _ _ _ _ _ _ conflict_PA5,
    runPairs_cons_some _ _ _ _ _ _ _ _ conflict_PB0,
    runPairs_cons_some _ _ _ _ _ _ _ _ conflict_PB5,
    runPairs_nil]
  rfl

lemma check_mission_claimed_eval :
    check_mission_claimed flightP [flightA, flightB] 10 false =
    .ok (false, [⟨"P", "A", [0, 0], 0, 1, 10⟩, ⟨"P", "B", [0, 0], 0, 2, 10⟩,
      ⟨"P", "A", [0, 0], 5, 1, 10⟩, ⟨"P", "B", [0, 0], 5, 2, 10⟩]) := by
  unfold check_mission_claimed
  rw [missionPairsClaimed_eval,
    runPairs_cons_some _ _ _ _ _ _ _ _ conflict_PA0,
    runPairs_cons_some _ _ _ _ _ _ _ _ conflict_PB0,
    runPairs_cons_some _ _ _ _ _ _ _ _ conflict_PA5,
    runPairs_cons_some _ _ _ _ _ _ _ _ conflict_PB5,
    runPairs_nil]
  rfl

lemma build_segments_wf (f : Flight) (hv : f.valid) :
    ∀ s ∈ build_segments f, s.wf := by
  intro s hs
  unfold build_segments at hs
  rw [List.mem_map] at hs
  obtain ⟨i, hi, rfl⟩ := hs
  rw [List.mem_range] at hi
  exact cst_mono f hv i (by omega)

lemma mem_missionPairs_wf (primary : Flight) (sims : List Flight)
    (hp : primary.valid) (hs : ∀ f ∈ sims, f.valid) :
    ∀ ps ∈ missionPairs primary sims, ps.1.wf ∧ ps.2.wf := by
  intro ps hps
  unfold missionPairs at hps
  simp only [List.mem_flatMap, List.mem_map] at hps
  obtain ⟨sim, hsim, p, hpmem, s, hsmem, hps_eq⟩ := hps
  rw [← hps_eq]
  exact ⟨build_segments_wf primary hp p hpmem,
    build_segments_wf sim (hs sim hsim) s hsmem⟩

lemma runPairs_eq_filterMap (buf : ℝ) (z : Bool) (K : ℕ) :
    ∀ (pairs : List (Segment × Segment)) (acc : List Conflict),
    (∀ ps ∈ pairs, segment_conflict ps.1 ps.2 buf z K ≠ .error ()) →
    runPairs buf z K pairs acc = .ok (acc ++ pairs.filterMap (fun ps =>
      match segment_conflict ps.1 ps.2 buf z K with
      | .ok (some c) => some c
      | _ => none)) := by
  intro pairs
  induction pairs with
  | nil =>
    intro acc _
    rw [runPairs_nil]
    simp
  | cons ps rest ih =>
    intro acc h
    obtain ⟨hps, hrest⟩ := List.forall_mem_cons.mp h
    obtain ⟨p, s⟩ := ps
    cases hconf : segment_conflict p s buf z K with
    | error e =>
      cases e
      exact absurd hconf hps
    | ok r =>
      cases r with
      | none =>
        have hstep : runPairs buf z K ((p, s) :: rest) acc =
            runPairs buf z K rest acc := by
          conv_lhs => rw [runPairs]
          rw [hconf]
        rw [hstep, ih acc hrest, List.filterMap_cons]
        simp only [hconf]
      | some c =>
        rw [runPairs_cons_some _ _ _ _ _ _ _ _ hconf, ih _ hrest,
          List.filterMap_cons]
        simp only [hconf]
        rw [List.append_assoc]
        rfl

/-- Claim C1 counterexample: at a concrete valid input with two primary
segments and two other missions, the implementation's conflict list is
grouped by other mission first (conflicting ids `A, A, B, B`), while the
claimed primary-segment-major ordering would give `A, B, A, B`. -/
theorem check_mission_order_counterexample :
    flightP.valid ∧ flightA.valid ∧ flightB.valid ∧
    check_mission flightP [flightA, flightB] 10 false =
      .ok (false, [⟨"P", "A", [0, 0], 0, 1, 10⟩, ⟨"P", "A", [0, 0], 5, 1, 10⟩,
        ⟨"P", "B", [0, 0], 0, 2, 10⟩, ⟨"P", "B", [0, 0], 5, 2, 10⟩]) ∧
    check_mission_claimed flightP [flightA, flightB] 10 false =
      .ok (false, [⟨"P", "A", [0, 0], 0, 1, 10⟩, ⟨"P", "B", [0, 0], 0, 2, 10⟩,
        ⟨"P", "A", [0, 0], 5, 1, 10⟩, ⟨"P", "B", [0, 0], 5, 2, 10⟩]) ∧
    ([⟨"P", "A", [0, 0], 0, 1, 10⟩, ⟨"P", "A", [0, 0], 5, 1, 10⟩,
      ⟨"P", "B", [0, 0], 0, 2, 10⟩, ⟨"P", "B", [0, 0], 5, 2, 10⟩] :
        List Conflict).map Conflict.conflicting_flight_id =
      ["A", "A", "B", "B"] ∧
    ([⟨"P", "A", [0, 0], 0, 1, 10⟩, ⟨"P", "B", [0, 0], 0, 2, 10⟩,
      ⟨"P", "A", [0, 0], 5, 1, 10⟩, ⟨"P", "B", [0, 0], 5, 2, 10⟩] :
        List Conflict).map Conflict.conflicting_flight_id =
      ["A", "B", "A", "B"] ∧
    (["A", "A", "B", "B"] : List String) ≠ ["A", "B", "A", "B"] := by
  refine ⟨⟨by norm_num [flightP], by norm_num [flightP], by norm_num [flightP]⟩,
    ⟨by norm_num [flightA], by norm_num [flightA], by norm_num [flightA]⟩,
    ⟨by norm_num [flightB], by norm_num [flightB], by norm_num [flightB]⟩,
    check_mission_eval, check_mission_claimed_eval, rfl, rfl, by decide⟩

/-- Claim C1 amended: for every valid primary mission, valid other
missions, safety buffer and dimensionality flag, `check_mission`
succeeds with a pair `(is_clear, conflicts)` where `is_clear` is true if
and only if `conflicts` is empty, and `conflicts` is ordered
other-mission-major, then by primary-mission-segment order, then by
other-mission-segment order (the implementation's loop order). -/
theorem check_mission_spec (primary : Flight) (sims : List Flight)
    (buf : ℝ) (z : Bool) (hp : primary.valid) (hs : ∀ f ∈ sims, f.valid) :
    ∃ cs,
      check_mission primary sims buf z = .ok (decide (cs.length = 0), cs) ∧
      ((decide (cs.length = 0)) = true ↔ cs = []) ∧
      cs = (missionPairs primary sims).filterMap (fun ps =>
        match segment_conflict ps.1 ps.2 buf z 20 with
        | .ok (some c) => some c
        | _ => none) := by
  have hwf := mem_missionPairs_wf primary sims hp hs
  have hok : ∀ ps ∈ missionPairs primary sims,
      segment_conflict ps.1 ps.2 buf z 20 ≠ .error () := by
    intro ps hps
    exact segment_conflict_no_error ps.1 ps.2 (hwf ps hps).1
      (hwf ps hps).2 buf z 20
  refine ⟨_, ?_, ?_, rfl⟩
  · unfold check_mission
    rw [runPairs_eq_filterMap buf z 20 _ [] hok]
    rw [List.nil_append]
  · rw [decide_eq_true_eq, List.length_eq_zero]

/-- Witness for the amended mission-check theorem at the concrete
three-mission input. -/
theorem check_mission_spec_witness :
    flightP.valid ∧ (∀ f ∈ [flightA, flightB], f.valid) ∧
    (∃ cs,
      check_mission flightP [flightA, flightB] 10 false =
        .ok (decide (cs.length = 0), cs) ∧
      ((decide (cs.length = 0)) = true ↔ cs = []) ∧
      cs = (missionPairs flightP [flightA, flightB]).filterMap (fun ps =>
        match segment_conflict ps.1 ps.2 10 false 20 with
        | .ok (some c) => some c
        | _ => none)) := by
  have hp : flightP.valid :=
    ⟨by norm_num [flightP], by norm_num [flightP], by norm_num [flightP]⟩
  have hs : ∀ f ∈ [flightA, flightB], f.valid := by
    intro f hf
    fin_cases hf
    · exact ⟨by norm_num [flightA], by norm_num [flightA],
        by norm_num [flightA]⟩
    · exact ⟨by norm_num [flightB], by norm_num [flightB],
        by norm_num [flightB]⟩
  exact ⟨hp, hs, check_mission_spec flightP [flightA, flightB] 10 false hp hs⟩

/-! ## Crossing-segment evaluations (sample counts 3 and 4) -/

lemma interp_segE (t : ℝ) : interp segE false t = [t, 0] := by
  unfold interp segE Waypoint.to_array
  rw [if_neg (by norm_num)]
  norm_num

lemma interp_segW (t : ℝ) : interp segW false t = [2 - t, 0] := by
  unfold interp segW Waypoint.to_array
  rw [if_neg (by norm_num)]
  norm_num
  ring

lemma distAt_EW (t : ℝ) : distAt segE segW false t =
    Real.sqrt ((2 * t - 2) ^ 2) := by
  unfold distAt
  rw [interp_segE, interp_segW]
  unfold distv vsub normSq
  norm_num
  congr 1
  ring

lemma distAt_EW_eval (t c : ℝ) (hc : 0 ≤ c) (h : c ^ 2 = (2 * t - 2) ^ 2) :
    distAt segE segW false t = c := by
  rw [distAt_EW]
  exact sqrt_of_sq hc h

lemma overlap_EW : compute_overlap_window segE.t_start segE.t_end
    segW.t_start segW.t_end = some (0, 2) := by
  show compute_overlap_window (0 : ℝ) 2 0 2 = some (0, 2)
  unfold compute_overlap_window
  rw [if_pos ((time_windows_overlap_iff 0 2 0 2).mpr
    ⟨by norm_num, by norm_num⟩)]
  norm_num [max_def, min_def]

lemma inSpan_EW (t : ℝ) (ha : 0 ≤ t) (hb : t ≤ 2) :
    inSpan segE t ∧ inSpan segW t :=
  ⟨⟨ha, hb⟩, ⟨ha, hb⟩⟩

lemma conflict_EW_3 : segment_conflict segE segW 10 false 3 =
    .ok (some ⟨"X", "Y", [1, 0], 1, 0, 10⟩) := by
  have h0 := distAt_EW_eval 0 2 (by norm_num) (by norm_num)
  have h1 := distAt_EW_eval 1 0 (by norm_num) (by norm_num)
  have h2 := distAt_EW_eval 2 2 (by norm_num) (by norm_num)
  unfold segment_conflict
  rw [overlap_EW]
  dsimp only
  rw [linspace_0_2_3]
  rw [trackMin_cons_none segE segW false 0 [1, 2]
    (inSpan_EW 0 (by norm_num) (by norm_num)).1
    (inSpan_EW 0 (by norm_num) (by norm_num)).2]
  rw [h0, interp_segE]
  rw [trackMin_cons_lt segE segW false 1 [2] 2 0 [0, 0]
    (inSpan_EW 1 (by norm_num) (by norm_num)).1
    (inSpan_EW 1 (by norm_num) (by norm_num)).2
    (by rw [h1]; norm_num)]
  rw [h1, interp_segE]
  rw [trackMin_cons_ge segE segW false 2 [] 0 1 [1, 0]
    (inSpan_EW 2 (by norm_num) (by norm_num)).1
    (inSpan_EW 2 (by norm_num) (by norm_num)).2
    (by rw [h2]; norm_num)]
  rw [trackMin_nil]
  dsimp only
  rw [if_pos (by norm_num : (0 : ℝ) < 10)]
  rfl

lemma conflict_EW_4 : segment_conflict segE segW 10 false 4 =
    .ok (some ⟨"X", "Y", [2/3, 0], 2/3, 2/3, 10⟩) := by
  have h0 := distAt_EW_eval 0 2 (by norm_num) (by norm_num)
  have h23 := distAt_EW_eval (2/3) (2/3) (by norm_num) (by norm_num)
  have h43 := distAt_EW_eval (4/3) (2/3) (by norm_num) (by norm_num)
  have h2 := distAt_EW_eval 2 2 (by norm_num) (by norm_num)
  unfold segment_conflict
  rw [overlap_EW]
  dsimp only
  rw [linspace_0_2_4]
  rw [trackMin_cons_none segE segW false 0 [2/3, 4/3, 2]
    (inSpan_EW 0 (by norm_num) (by norm_num)).1
    (inSpan_EW 0 (by norm_num) (by norm_num)).2]
  rw [h0, interp_segE]
  rw [trackMin_cons_lt segE segW false (2/3) [4/3, 2] 2 0 [0, 0]
    (inSpan_EW (2/3) (by norm_num) (by norm_num)).1
    (inSpan_EW (2/3) (by norm_num) (by norm_num)).2
    (by rw [h23]; norm_num)]
  rw [h23, interp_segE]
  rw [trackMin_cons_ge segE segW false (4/3) [2] (2/3) (2/3) [2/3, 0]
    (inSpan_EW (4/3) (by norm_num) (by norm_num)).1
    (inSpan_EW (4/3) (by norm_num) (by norm_num)).2
    (by rw [h43]; norm_num)]
  rw [trackMin_cons_ge segE segW false 2 [] (2/3) (2/3) [2/3, 0]
    (inSpan_EW 2 (by norm_num) (by norm_num)).1
    (inSpan_EW 2 (by norm_num) (by norm_num)).2
    (by rw [h2]; norm_num)]
  rw [trackMin_nil]
  dsimp only
  rw [if_pos (by norm_num : (2/3 : ℝ) < 10)]
  rfl

/-- Claim C2 counterexample: for the concrete crossing segments, the
detector with 3 samples reports minimum distance 0, but with 4 samples
it reports 2/3 — increasing the sample count increased the reported
minimum distance. -/
theorem sample_min_not_monotone :
    (3 : ℕ) < 4 ∧
    segment_conflict segE segW 10 false 3 =
      .ok (some ⟨"X", "Y", [1, 0], 1, 0, 10⟩) ∧
    segment_conflict segE segW 10 false 4 =
      .ok (some ⟨"X", "Y", [2/3, 0], 2/3, 2/3, 10⟩) ∧
    ¬ ((⟨"X", "Y", [2/3, 0], 2/3, 2/3, 10⟩ : Conflict).min_distance ≤
       (⟨"X", "Y", [1, 0], 1, 0, 10⟩ : Conflict).min_distance) :=
  ⟨by norm_num, conflict_EW_3, conflict_EW_4,
    show ¬ ((2/3 : ℝ) ≤ 0) by norm_num⟩

/-- The sample grid with `K1` points is contained in the grid with `K2`
points exactly when the two grids are nested: `(K1 - 1) ∣ (K2 - 1)`. -/
lemma linspace_subset (a b : ℝ) (K1 K2 : ℕ) (h1 : 1 ≤ K1) (hle : K1 ≤ K2)
    (hdvd : (K1 - 1) ∣ (K2 - 1)) :
    ∀ x ∈ linspace a b K1, x ∈ linspace a b K2 := by
  intro x hx
  rcases Nat.lt_or_ge K1 2 with hK | hK
  · have hK1' : K1 = 1 := by omega
    subst hK1'
    unfold linspace at hx
    rw [List.mem_singleton] at hx
    subst hx
    obtain ⟨rest, hr⟩ := linspace_head x b K2 hle
    rw [hr]
    exact List.mem_cons_self _ _
  · obtain ⟨m, hm⟩ : ∃ m, K1 = m + 2 := ⟨K1 - 2, by omega⟩
    subst hm
    obtain ⟨dq, hdq⟩ := hdvd
    obtain ⟨m2, hm2⟩ : ∃ m2, K2 = m2 + 2 := ⟨K2 - 2, by omega⟩
    subst hm2
    rw [show m + 2 - 1 = m + 1 from rfl,
      show m2 + 2 - 1 = m2 + 1 from rfl] at hdq
    have hdq' : m2 + 1 = (m + 1) * dq := hdq
    have hdqpos : 1 ≤ dq := by
      rcases Nat.eq_zero_or_pos dq with h | h
      · rw [h, Nat.mul_zero] at hdq'
        omega
      · exact h
    unfold linspace at hx ⊢
    rw [List.mem_map] at hx ⊢
    obtain ⟨i, hi, rfl⟩ := hx
    rw [List.mem_range] at hi
    refine ⟨i * dq, ?_, ?_⟩
    · rw [List.mem_range]
      have hmul : i * dq ≤ (m + 1) * dq :=
        Nat.mul_le_mul_right dq (by omega)
      omega
    · have hcast : ((m2 : ℝ) + 1) = ((m : ℝ) + 1) * (dq : ℝ) := by
        exact_mod_cast congrArg (fun (n : ℕ) => (n : ℝ)) hdq'
      have hdqne : (dq : ℝ) ≠ 0 := by
        have : (0 : ℝ) < dq := by exact_mod_cast hdqpos
        linarith
      have hmne : ((m : ℝ) + 1) ≠ 0 := by positivity
      rw [hcast]
      push_cast
      congr 1
      field_simp
      ring

/-- Claim C2 amended: increasing the sample count never increases the
tracked minimum distance when the coarser grid is nested in the finer
one, i.e. for `1 ≤ K1 ≤ K2` with `(K1 - 1) ∣ (K2 - 1)`.  (For general
`K1 < K2` the property fails; see the counterexample.) -/
theorem sample_min_monotone_nested (s1 s2 : Segment) (z : Bool)
    (hw1 : s1.wf) (hw2 : s2.wf) (os oe : ℝ)
    (hov : compute_overlap_window s1.t_start s1.t_end s2.t_start s2.t_end =
      some (os, oe))
    (K1 K2 : ℕ) (hK1 : 1 ≤ K1) (hle : K1 ≤ K2)
    (hdvd : (K1 - 1) ∣ (K2 - 1)) :
    ∃ d1 t1 p1 d2 t2 p2,
      trackMin s1 s2 z (linspace os oe K1) none = .ok (some (d1, t1, p1)) ∧
      trackMin s1 s2 z (linspace os oe K2) none = .ok (some (d2, t2, p2)) ∧
      d2 ≤ d1 := by
  have hoo : os ≤ oe := (overlap_bounds s1 s2 os oe hw1 hw2 hov).1
  have hmem1 : ∀ t ∈ linspace os oe K1, inSpan s1 t ∧ inSpan s2 t := by
    intro t ht
    obtain ⟨ha, hb⟩ := linspace_mem os oe K1 t hoo ht
    exact overlap_mem_span s1 s2 os oe t hw1 hw2 hov ha hb
  have hmem2 : ∀ t ∈ linspace os oe K2, inSpan s1 t ∧ inSpan s2 t := by
    intro t ht
    obtain ⟨ha, hb⟩ := linspace_mem os oe K2 t hoo ht
    exact overlap_mem_span s1 s2 os oe t hw1 hw2 hov ha hb
  have hne1 : linspace os oe K1 ≠ [] := by
    intro hnil
    have := linspace_length os oe K1
    rw [hnil] at this
    simp at this
    omega
  have hne2 : linspace os oe K2 ≠ [] := by
    intro hnil
    have := linspace_length os oe K2
    rw [hnil] at this
    simp at this
    omega
  obtain ⟨d1, t1, p1, heq1, hdm1, hpm1, hbound1, l1a, l1b, hsplit1, _⟩ :=
    trackMin_run_spec s1 s2 z (linspace os oe K1) hne1 hmem1
  obtain ⟨d2, t2, p2, heq2, hdm2, hpm2, hbound2, l2a, l2b, hsplit2, _⟩ :=
    trackMin_run_spec s1 s2 z (linspace os oe K2) hne2 hmem2
  refine ⟨d1, t1, p1, d2, t2, p2, heq1, heq2, ?_⟩
  have ht1_mem1 : t1 ∈ linspace os oe K1 := by
    rw [hsplit1]
    exact List.mem_append_right _ (List.mem_cons_self _ _)
  have ht1_mem2 : t1 ∈ linspace os oe K2 :=
    linspace_subset os oe K1 K2 hK1 hle hdvd t1 ht1_mem1
  calc d2 ≤ distAt s1 s2 z t1 := hbound2 t1 ht1_mem2
    _ = d1 := hdm1

/-- Witness for the nested-grid monotonicity theorem at the concrete
crossing segments with sample counts 3 and 5. -/
theorem sample_min_monotone_nested_witness :
    ∃ d1 t1 p1 d2 t2 p2,
      trackMin segE segW false (linspace 0 2 3) none =
        .ok (some (d1, t1, p1)) ∧
      trackMin segE segW false (linspace 0 2 5) none =
        .ok (some (d2, t2, p2)) ∧
      d2 ≤ d1 :=
  sample_min_monotone_nested segE segW false
    (by norm_num [Segment.wf, segE]) (by norm_num [Segment.wf, segW])
    0 2 overlap_EW 3 5 (by norm_num) (by norm_num) ⟨2, rfl⟩

/-- Witness for the pairwise-detector theorem: a temporally disjoint,
spatially close pair yields no conflict. -/
theorem segment_conflict_spec_witness :
    segment_conflict segE ⟨⟨0, 0, 0⟩, ⟨0, 0, 0⟩, 5, 6, "Z"⟩ 10 false 3 =
      .ok none := by
  have h := (segment_conflict_spec segE ⟨⟨0, 0, 0⟩, ⟨0, 0, 0⟩, 5, 6, "Z"⟩
    10 false 3 (by norm_num [Segment.wf, segE])
    (by norm_num [Segment.wf]) (by norm_num)).1
  apply h
  show min (2 : ℝ) 6 < max 0 5
  norm_num [min_def, max_def]

/-- Witness for the earliest-minimizer theorem at the concrete crossing
segments with 3 samples. -/
theorem conflict_time_earliest_witness :
    ∃ os oe,
      compute_overlap_window segE.t_start segE.t_end segW.t_start
        segW.t_end = some (os, oe) ∧
      (⟨"X", "Y", [1, 0], 1, 0, 10⟩ : Conflict).time ∈ linspace os oe 3 ∧
      distAt segE segW false (⟨"X", "Y", [1, 0], 1, 0, 10⟩ : Conflict).time
        = (⟨"X", "Y", [1, 0], 1, 0, 10⟩ : Conflict).min_distance ∧
      (⟨"X", "Y", [1, 0], 1, 0, 10⟩ : Conflict).location =
        interp segE false (⟨"X", "Y", [1, 0], 1, 0, 10⟩ : Conflict).time ∧
      (∀ t ∈ linspace os oe 3,
        (⟨"X", "Y", [1, 0], 1, 0, 10⟩ : Conflict).min_distance ≤
          distAt segE segW false t) ∧
      (∀ t ∈ linspace os oe 3,
        distAt segE segW false t =
          (⟨"X", "Y", [1, 0], 1, 0, 10⟩ : Conflict).min_distance →
        (⟨"X", "Y", [1, 0], 1, 0, 10⟩ : Conflict).time ≤ t) :=
  conflict_time_earliest segE segW 10 false 3
    (by norm_num [Segment.wf, segE]) (by norm_num [Segment.wf, segW])
    _ conflict_EW_3

end Deconflict
